import Mathlib

/-!
# Verification of the LLPStandardPlots selection-and-extraction pipeline

A shallow embedding of the core loading pipeline of the repository
(`src/loader.py`, `src/selections.py`, `src/config.py`) together with
theorems settling the frozen claims about it.

Modelling conventions:
* Numeric values (branch contents, weights, scale factors) are modelled as
  rationals (`ℚ`).  Every concrete computation appearing in the claims is
  exact in binary floating point as well, so this is faithful for the
  properties at stake.
* A ROOT tree / numpy branch dictionary is an association list from branch
  name to a column, where a column is either a flat (scalar per event) or a
  jagged (list per event) array.
* `uproot`'s `tree.arrays(branches)` raises a key error when a requested
  branch is missing from the tree; this is modelled by `uprootArrays`
  returning `Except`.  The repository itself relies on this behaviour:
  `load_data_unified` pre-filters with `available_branches = [b for b in
  branches if b in tree]` precisely to avoid the exception, and
  `_apply_hlt_fallback` wraps its own `tree.arrays` call in `try/except`.
* Python exceptions are modelled with `Except`; an uncaught exception is an
  `Except.error` value.
-/

namespace LLP

/-- Numeric values of the pipeline (branch entries, weights, thresholds). -/
abbrev Val := ℚ

/-- One column of a loaded file: either a flat per-event array or a jagged
(array per event) branch. -/
inductive Col where
  | scalar (xs : List Val)
  | jagged (xs : List (List Val))
deriving DecidableEq, Repr

/-- A branch dictionary (a loaded tree, or the result of `tree.arrays`):
association list from branch name to column. -/
abbrev Table := List (String × Col)

/-- Membership test for a branch name (`name in data` in Python). -/
def containsKey (t : Table) (k : String) : Bool :=
  (t.lookup k).isSome

/-- Access `data[k][i]` for a flat column; out-of-model accesses default
to `0` (they are ruled out by hypotheses wherever they matter). -/
def getScalar (t : Table) (k : String) (i : ℕ) : Val :=
  match t.lookup k with
  | some (Col.scalar xs) => xs.getD i 0
  | _ => 0

/-- Access `data[k][i]` for a jagged column. -/
def getJagged (t : Table) (k : String) (i : ℕ) : List Val :=
  match t.lookup k with
  | some (Col.jagged xs) => xs.getD i []
  | _ => []

/-- Number of rows of a column. -/
def Col.rows : Col → ℕ
  | Col.scalar xs => xs.length
  | Col.jagged xs => xs.length

/-- `n_events = len(data['evtFillWgt'])` (loader.py line 214 / 83). -/
def nEvents (data : Table) : ℕ :=
  match data.lookup "evtFillWgt" with
  | some c => c.rows
  | none => 0

/-! ## `src/config.py` — `AnalysisConfig` -/

/-- The fields of one entry of `AnalysisConfig.VARIABLES` that the loader
consults (plot cosmetics are irrelevant to the pipeline and omitted). -/
structure VarConfig where
  scale : Val
  is_vector : Bool
deriving DecidableEq, Repr

namespace AnalysisConfig

def MET_CUT : Val := 150
def RJR_PTS_CUT : Val := 150
def EVT_WGT_CUT : Val := 10

/-- `AnalysisConfig.VARIABLES`, in dict insertion order, restricted to the
fields the loader reads (`scale`, `is_vector`). -/
def VARIABLES : List (String × VarConfig) :=
  [ ("rjr_Ms", ⟨1/1000, true⟩),
    ("rjr_Rs", ⟨1, true⟩),
    ("HadronicSV_mass", ⟨1, true⟩),
    ("HadronicSV_dxy", ⟨1, true⟩),
    ("HadronicSV_dxySig", ⟨1, true⟩),
    ("HadronicSV_pOverE", ⟨1, true⟩),
    ("HadronicSV_decayAngle", ⟨1, true⟩),
    ("HadronicSV_cosTheta", ⟨1, true⟩),
    ("HadronicSV_nTracks", ⟨1, true⟩),
    ("LeptonicSV_mass", ⟨1, true⟩),
    ("LeptonicSV_dxy", ⟨1, true⟩),
    ("LeptonicSV_dxySig", ⟨1, true⟩),
    ("LeptonicSV_pOverE", ⟨1, true⟩),
    ("LeptonicSV_decayAngle", ⟨1, true⟩),
    ("LeptonicSV_cosTheta", ⟨1, true⟩),
    ("selCMet", ⟨1, false⟩),
    ("selPhoEta", ⟨1, true⟩),
    ("selPhoWTime", ⟨1, true⟩),
    ("selPho_beamHaloCNNScore", ⟨1, true⟩) ]

end AnalysisConfig

/-! ## `src/selections.py` — `SelectionManager` and `src/loader.py` init -/

/-- Python exceptions that the loader can raise, as values. -/
inductive PyErr where
  | typeError (msg : String)
  | keyInFileError (branch : String)
  | keyError (key : String)
deriving DecidableEq, Repr

/-- The state a successfully constructed `SelectionManager` would hold. -/
structure SelectionManager where
  common_cuts : List String
  flags : List String
  hlt_fallback_expression : String
deriving DecidableEq, Repr

/-- The field values assigned by `SelectionManager.__init__`
(`src/selections.py` lines 101-113). -/
def SelectionManager.fields : SelectionManager :=
  { common_cuts := ["selCMet > 150", "rjrPTS < 150"],
    flags := ["hlt_flags", "Flag_MetFilters"],
    hlt_fallback_expression :=
      "(Trigger_PFMET120_PFMHT120_IDTight || Trigger_PFMETNoMu120_PFMHTNoMu120_IDTight || Trigger_PFMET120_PFMHT120_IDTight_PFHT60 || Trigger_PFMETNoMu120_PFMHTNoMu120_IDTight_PFHT60)" }

/-- Values a Python caller can pass as an argument. -/
inductive PyVal where
  | bool (b : Bool)
  | str (s : String)
  | num (q : Val)
deriving DecidableEq, Repr

/-- Calling `SelectionManager(...)`: the `__init__` of `src/selections.py`
line 101 declares no parameter besides `self`, so any call with a
positional argument raises `TypeError`. -/
def SelectionManager.call (args : List PyVal) : Except PyErr SelectionManager :=
  match args with
  | [] => Except.ok SelectionManager.fields
  | _ => Except.error (PyErr.typeError
      "SelectionManager.__init__() takes 1 positional argument but 2 were given")

/-- The state a successfully constructed `DataLoader` would hold (the
diagnostic-only `loading_summary` dict is omitted). -/
structure DataLoader where
  tree_name : String
  luminosity : Val
  selection_manager : SelectionManager
deriving DecidableEq, Repr

/-- `DataLoader.__init__` (`src/loader.py` lines 7-16): stores the tree name
and luminosity and calls `SelectionManager(exclude_bh_filter)` with one
positional argument. -/
def DataLoader.make (tree_name : String) (luminosity : Val)
    (exclude_bh_filter : Bool) : Except PyErr DataLoader := do
  let sm ← SelectionManager.call [PyVal.bool exclude_bh_filter]
  Except.ok { tree_name := tree_name, luminosity := luminosity,
              selection_manager := sm }

/-! ## `src/loader.py` — `DataLoader._extract_values` (lines 275-327) -/

/-- `var_key in ['rjr_Ms', 'rjr_Rs']` (loader.py line 300). -/
def isRjrKey (k : String) : Bool :=
  k = "rjr_Ms" || k = "rjr_Rs"

/-- `var_key.startswith('HadronicSV_') or var_key.startswith('LeptonicSV_')
or var_key.startswith("selPho")` (loader.py line 308): the per-object
(flattened) variables.  (The prefix test is taken on the character list,
which is the meaning of `str.startswith`.) -/
def isPerObjectKey (k : String) : Bool :=
  "HadronicSV_".toList.isPrefixOf k.toList ||
    "LeptonicSV_".toList.isPrefixOf k.toList ||
    "selPho".toList.isPrefixOf k.toList

/-- The row-level qualifying guard of loader.py lines 282-285: both
kinematic vectors nonempty, `rjrPTS` nonempty, and its first entry below
`RJR_PTS_CUT`. -/
def rowQualifies (data : Table) (i : ℕ) : Bool :=
  decide (0 < (getJagged data "rjr_Ms" i).length) &&
  decide (0 < (getJagged data "rjr_Rs" i).length) &&
  decide (0 < (getJagged data "rjrPTS" i).length) &&
  decide ((getJagged data "rjrPTS" i).headD 0 < AnalysisConfig.RJR_PTS_CUT)

/-- `base_weight = 1.0 if is_data else data['evtFillWgt'][idx] *
self.luminosity` (loader.py line 288). -/
def baseWeight (data : Table) (lumi : Val) (is_data : Bool) (i : ℕ) : Val :=
  if is_data then 1 else getScalar data "evtFillWgt" i * lumi

/-- The values appended to `extracted_data[var_key]` by one qualifying row
`i` for variable `k` (loader.py lines 300-321): element `[0]` for the two
rjr variables, the whole flattened array for per-object variables, the
scalar for non-vector variables, nothing otherwise. -/
def rowContrib (data : Table) (k : String) (cfg : VarConfig) (i : ℕ) :
    List Val :=
  if isRjrKey k then
    if 0 < (getJagged data k i).length then
      [(getJagged data k i).headD 0 * cfg.scale]
    else []
  else if isPerObjectKey k then
    (getJagged data k i).map (fun v => v * cfg.scale)
  else if cfg.is_vector = false then
    [getScalar data k i * cfg.scale]
  else []

/-- The weights appended to `extracted_data[f'{var_key}_weights']` by one
qualifying row, mirroring each append branch of loader.py (lines 306, 314,
321): one copy of the base weight per appended value. -/
def rowWeightChunk (data : Table) (k : String) (cfg : VarConfig) (i : ℕ)
    (w : Val) : List Val :=
  if isRjrKey k then
    if 0 < (getJagged data k i).length then [w] else []
  else if isPerObjectKey k then
    (getJagged data k i).map (fun _ => w)
  else if cfg.is_vector = false then
    [w]
  else []

/-- The `extracted_data` dict: association list from key to accumulated
list, in insertion order. -/
abbrev VDict := List (String × List Val)

/-- Create-or-append on the dict: if the key is present append to its
list (dict initialisation at loader.py lines 295-298 followed by the
`.append` calls), otherwise insert it at the end with the given initial
contents (Python dicts preserve insertion order). -/
def ensureAppend (m : VDict) (k : String) (vs : List Val) : VDict :=
  match m with
  | [] => [(k, vs)]
  | (k₀, xs) :: rest =>
      if k₀ = k then (k₀, xs ++ vs) :: rest
      else (k₀, xs) :: ensureAppend rest k vs

/-- Processing of one catalog variable for one qualifying row (loader.py
lines 291-321): skipped when the branch is absent from `data`; otherwise
the value list and (except for a hypothetical `weights` catalog key, line
297) the sibling weight list are created/extended. -/
def processVar (data : Table) (lumi : Val) (is_data : Bool) (i : ℕ)
    (st : VDict) (p : String × VarConfig) : VDict :=
  if containsKey data p.1 then
    let st1 := ensureAppend st p.1 (rowContrib data p.1 p.2 i)
    if p.1 ≠ "weights" then
      ensureAppend st1 (p.1 ++ "_weights")
        (rowWeightChunk data p.1 p.2 i (baseWeight data lumi is_data i))
    else st1
  else st

/-- Processing of one selected row (loader.py lines 281-321): rows failing
the qualifying guard contribute nothing; qualifying rows run over the
catalog in order. -/
def rowStep (data : Table) (lumi : Val) (is_data : Bool) (st : VDict)
    (i : ℕ) : VDict :=
  if rowQualifies data i then
    AnalysisConfig.VARIABLES.foldl (processVar data lumi is_data i) st
  else st

/-- `np.where(mask)[0]`: the indices at which the mask is true, ascending. -/
def maskIndices (mask : List Bool) : List ℕ :=
  (List.range mask.length).filter (fun i => mask.getD i false)

/-- `DataLoader._extract_values(data, mask, is_data)` (loader.py lines
275-327).  (The final numpy conversion at lines 323-325 keeps contents and
order and is dropped.) -/
def extract_values (data : Table) (mask : List Bool) (is_data : Bool)
    (lumi : Val) : VDict :=
  (maskIndices mask).foldl (rowStep data lumi is_data) []

/-- The selected rows that pass the qualifying guard, in order. -/
def qualifyingIndices (data : Table) (mask : List Bool) : List ℕ :=
  (maskIndices mask).filter (rowQualifies data)

/-! ## `DataLoader._process_extracted_data` (lines 329-349) -/

/-- `var_key.endswith('_weights')` (loader.py line 337). -/
def endsWithWeights (k : String) : Bool :=
  "_weights".toList.isSuffixOf k.toList

/-- The loop body of `_process_extracted_data` (loader.py lines 336-343):
each non-weight key is copied, followed by its sibling weight key when
present. -/
def processStep (ev : VDict) (acc : VDict) (p : String × List Val) : VDict :=
  if endsWithWeights p.1 = false then
    let acc1 := acc ++ [(p.1, p.2)]
    match ev.lookup (p.1 ++ "_weights") with
    | some ws => acc1 ++ [(p.1 ++ "_weights", ws)]
    | none => acc1
  else acc

/-- `DataLoader._process_extracted_data(extracted_vars)`: `None` when the
dict is empty or lacks the primary variable; otherwise copies every
non-weight key together with its sibling weight key and finally aliases
`weights` to the primary variable's weights. -/
def process_extracted_data (ev : VDict) : Option VDict :=
  if (ev.lookup "rjr_Ms").isSome = false then none
  else
    let fd := ev.foldl (processStep ev) []
    some (match ev.lookup "rjr_Ms_weights" with
          | some ws => fd ++ [("weights", ws)]
          | none => fd)

/-! ## `DataLoader.combine_data` (lines 410-423) -/

/-- `d[k]` on a per-file data dict: a missing key raises `KeyError`. -/
def getColumn (d : VDict) (k : String) : Except PyErr (List Val) :=
  match d.lookup k with
  | some xs => Except.ok xs
  | none => Except.error (PyErr.keyError k)

/-- `DataLoader.combine_data(data_dict)`: `None` for an empty dict,
otherwise the concatenation of the `rjr_Ms`, `rjr_Rs` and `weights`
arrays of every file, in iteration order.  No exception path is taken on
the empty dict: the function returns normally. -/
def combine_data (ds : List VDict) : Except PyErr (Option VDict) := do
  if ds.isEmpty then Except.ok none
  else
    let ms ← ds.mapM (fun d => getColumn d "rjr_Ms")
    let rs ← ds.mapM (fun d => getColumn d "rjr_Rs")
    let ws ← ds.mapM (fun d => getColumn d "weights")
    Except.ok (some [("rjr_Ms", ms.flatten), ("rjr_Rs", rs.flatten),
                     ("weights", ws.flatten)])

/-! ## `DataLoader._evaluate_single_condition` (lines 375-408)

The condition grammar is the anchored-prefix regex
`(\w+)\s*(==|!=|<=|>=|<|>)\s*(\d+(?:\.\d+)?)` applied with `re.match`,
i.e. matching a prefix of the string and ignoring anything after the
numeric literal.  For this pattern greedy maximal-munch matching is
complete (no operator character is a word character, no whitespace
character is an operator character, and the optional fraction group is
the only local choice), so the matcher below is an exact model. -/

/-- `\w`: word characters (ASCII letters, digits, underscore; all inputs
of the pipeline are ASCII). -/
def isWordChar (c : Char) : Bool :=
  c.isAlphanum || c = '_'

/-- The six comparison operators accepted by the regex. -/
inductive CmpOp where
  | eq | ne | le | ge | lt | gt
deriving DecidableEq, Repr

/-- The operator alternation `(==|!=|<=|>=|<|>)`, tried in the regex's
left-to-right order. -/
def matchOp (s : List Char) : Option (CmpOp × List Char) :=
  match s with
  | c1 :: c2 :: rest =>
      if c1 = '=' ∧ c2 = '=' then some (CmpOp.eq, rest)
      else if c1 = '!' ∧ c2 = '=' then some (CmpOp.ne, rest)
      else if c1 = '<' ∧ c2 = '=' then some (CmpOp.le, rest)
      else if c1 = '>' ∧ c2 = '=' then some (CmpOp.ge, rest)
      else if c1 = '<' then some (CmpOp.lt, c2 :: rest)
      else if c1 = '>' then some (CmpOp.gt, c2 :: rest)
      else none
  | [c1] =>
      if c1 = '<' then some (CmpOp.lt, [])
      else if c1 = '>' then some (CmpOp.gt, [])
      else none
  | [] => none

/-- The source text of an operator. -/
def opChars : CmpOp → List Char
  | CmpOp.eq => ['=', '=']
  | CmpOp.ne => ['!', '=']
  | CmpOp.le => ['<', '=']
  | CmpOp.ge => ['>', '=']
  | CmpOp.lt => ['<']
  | CmpOp.gt => ['>']

/-- `\s*`: skip whitespace. -/
def dropSpaces (s : List Char) : List Char :=
  s.dropWhile Char.isWhitespace

/-- The numeric literal `\d+(?:\.\d+)?`: one or more digits, optionally
followed by a point and one or more digits; if the point is not followed
by a digit the optional group is not taken (regex backtracking). -/
def matchNumber (s : List Char) : Option (List Char × List Char) :=
  let ds := s.takeWhile Char.isDigit
  let rest := s.dropWhile Char.isDigit
  if ds.isEmpty then none
  else
    match rest with
    | '.' :: r2 =>
        let fs := r2.takeWhile Char.isDigit
        if fs.isEmpty then some (ds, rest)
        else some (ds ++ '.' :: fs, r2.dropWhile Char.isDigit)
    | _ => some (ds, rest)

/-- A successful `re.match` of the condition pattern: the identifier, the
operator, the literal text, and the unconsumed remainder of the string
(which `re.match` ignores). -/
structure CondMatch where
  var : List Char
  op : CmpOp
  lit : List Char
  rest : List Char
deriving DecidableEq, Repr

/-- `re.match(r'(\w+)\s*(==|!=|<=|>=|<|>)\s*(\d+(?:\.\d+)?)', condition)`
(loader.py line 382). -/
def matchCondition (s : List Char) : Option CondMatch :=
  let idn := s.takeWhile isWordChar
  if idn.isEmpty then none
  else
    match matchOp (dropSpaces (s.dropWhile isWordChar)) with
    | none => none
    | some (op, r2) =>
        match matchNumber (dropSpaces r2) with
        | none => none
        | some (lit, rest) => some ⟨idn, op, lit, rest⟩

/-- Digit text to number. -/
def digitsToNat (ds : List Char) : ℕ :=
  ds.foldl (fun n c => 10 * n + (c.toNat - '0'.toNat)) 0

/-- `float(value_str) if '.' in value_str else int(value_str)` (loader.py
line 392), as an exact rational. -/
def litToVal (ds : List Char) : Val :=
  if '.' ∈ ds then
    let ip := ds.takeWhile (fun c => c ≠ '.')
    let fp := (ds.dropWhile (fun c => c ≠ '.')).drop 1
    (digitsToNat ip : Val) + (digitsToNat fp : Val) / (10 : Val) ^ fp.length
  else (digitsToNat ds : Val)

/-- The two failure modes of the condition evaluator: the `ValueError
(f"Cannot parse condition: {condition}")` of line 384 (the spec's
`ParseError`) and the `ValueError(f"Unknown variable: {var_name}")` of
line 389 (the spec's `ConfigurationError`).  The `Unknown operator`
branch of line 408 is unreachable: the regex only produces the six
operators it dispatches on. -/
inductive CutErr where
  | cannotParse (condition : List Char)
  | unknownVariable (name : List Char)
deriving DecidableEq, Repr

/-- The variable bindings dict passed to the evaluator. -/
abbrev Bindings := List (List Char × List Val)

/-- The element-wise numpy comparison of lines 394-406. -/
def applyOp (op : CmpOp) (arr : List Val) (v : Val) : List Bool :=
  match op with
  | CmpOp.eq => arr.map (fun x => decide (x = v))
  | CmpOp.ne => arr.map (fun x => decide (x ≠ v))
  | CmpOp.lt => arr.map (fun x => decide (x < v))
  | CmpOp.gt => arr.map (fun x => decide (v < x))
  | CmpOp.le => arr.map (fun x => decide (x ≤ v))
  | CmpOp.ge => arr.map (fun x => decide (v ≤ x))

/-- `DataLoader._evaluate_single_condition(condition, variables)`
(loader.py lines 375-408). -/
def evaluate_single_condition (cond : List Char) (vars : Bindings) :
    Except CutErr (List Bool) :=
  match matchCondition cond with
  | none => Except.error (CutErr.cannotParse cond)
  | some m =>
      match vars.lookup m.var with
      | none => Except.error (CutErr.unknownVariable m.var)
      | some arr => Except.ok (applyOp m.op arr (litToVal m.lit))

/-! ## `DataLoader._parse_simple_cut` (lines 351-373) -/

/-- `str.strip()`: remove leading and trailing whitespace. -/
def stripChars (s : List Char) : List Char :=
  ((s.dropWhile Char.isWhitespace).reverse.dropWhile Char.isWhitespace).reverse

/-- `cut_string.split(' & ')`: split on every non-overlapping occurrence
of the three-character separator, scanning left to right. -/
def splitOnAmp : List Char → List (List Char)
  | ' ' :: '&' :: ' ' :: rest => [] :: splitOnAmp rest
  | c :: rest =>
      match splitOnAmp rest with
      | [] => [[c]]
      | g :: gs => (c :: g) :: gs
  | [] => [[]]

/-- Left fold of element-wise AND over the per-part masks (loader.py
lines 363-370; `result_mask` starts at `None` and the part list is never
empty). -/
def andMasks : List (List Bool) → List Bool
  | [] => []
  | m :: ms => ms.foldl (fun a b => List.zipWith (fun x y => x && y) a b) m

/-- `DataLoader._parse_simple_cut(cut_string, variables)`: `' & ' in
cut_string` is equivalent to its split having at least two parts; in that
case each stripped part is evaluated and the masks are ANDed, otherwise
the whole string is evaluated as a single condition. -/
def parse_simple_cut (cut : List Char) (vars : Bindings) :
    Except CutErr (List Bool) :=
  let parts := splitOnAmp cut
  if 2 ≤ parts.length then
    match parts.mapM (fun p => evaluate_single_condition (stripChars p) vars) with
    | Except.error e => Except.error e
    | Except.ok masks => Except.ok (andMasks masks)
  else evaluate_single_condition cut vars

/-! ## `uproot` access and `DataLoader.load_data` (lines 48-145) -/

/-- `tree.arrays(branches, library='np')`: raises a key error when a
requested branch is missing, otherwise returns the branch dictionary
(see the module comment for why the strict behaviour is the faithful
model). -/
def uprootArrays (tree : Table) (branches : List String) :
    Except PyErr Table :=
  match branches.find? (fun b => containsKey tree b = false) with
  | some b => Except.error (PyErr.keyInFileError b)
  | none => Except.ok (branches.foldr (fun b acc =>
      match tree.lookup b with
      | some c => (b, c) :: acc
      | none => acc) [])

/-- The four per-trigger branches of `_apply_hlt_fallback` (loader.py
lines 151-156). -/
def hltTriggerBranches : List String :=
  [ "Trigger_PFMET120_PFMHT120_IDTight",
    "Trigger_PFMETNoMu120_PFMHTNoMu120_IDTight",
    "Trigger_PFMET120_PFMHT120_IDTight_PFHT60",
    "Trigger_PFMETNoMu120_PFMHTNoMu120_IDTight_PFHT60" ]

/-- `DataLoader._apply_hlt_fallback(tree)` (loader.py lines 147-170):
loads the four trigger branches and ORs their `== 1` masks; any failure
(in particular a missing trigger branch) propagates as an exception. -/
def apply_hlt_fallback (tree : Table) : Except PyErr (List Bool) := do
  let td ← uprootArrays tree hltTriggerBranches
  let n := match td.lookup "Trigger_PFMET120_PFMHT120_IDTight" with
    | some c => c.rows
    | none => 0
  Except.ok ((List.range n).map (fun i =>
    hltTriggerBranches.foldl (fun acc b =>
      if containsKey td b then acc || decide (getScalar td b i = 1)
      else acc) false))

/-- The fixed branch list of `load_data` (loader.py lines 54-68): the
base branches, then the final-state flags, then the selection-manager
flags. -/
def load_data_branches (final_state_flags : List String) : List String :=
  [ "rjr_Ms", "rjr_Rs", "evtFillWgt", "SV_nHadronic",
    "selCMet", "rjrPTS",
    "HadronicSV_mass", "HadronicSV_dxy", "HadronicSV_dxySig",
    "HadronicSV_pOverE", "HadronicSV_decayAngle", "HadronicSV_cosTheta",
    "HadronicSV_nTracks",
    "LeptonicSV_mass", "LeptonicSV_dxy", "LeptonicSV_dxySig",
    "LeptonicSV_pOverE", "LeptonicSV_decayAngle", "LeptonicSV_cosTheta",
    "selPhoEta", "selPhoWTime" ]
  ++ final_state_flags ++ SelectionManager.fields.flags

/-- The scalar part of the baseline mask (loader.py lines 84-88 and
214-219, identical in both loaders): `selCMet > MET_CUT` and
`evtFillWgt < EVT_WGT_CUT`. -/
def scalarBaseMask (data : Table) : List Bool :=
  (List.range (nEvents data)).map (fun i =>
    decide (AnalysisConfig.MET_CUT < getScalar data "selCMet" i) &&
    decide (getScalar data "evtFillWgt" i < AnalysisConfig.EVT_WGT_CUT))

/-- The `== 1` mask of one flag column. -/
def flagMask (data : Table) (flag : String) : List Bool :=
  (List.range (nEvents data)).map (fun i =>
    decide (getScalar data flag i = 1))

/-- The flag loop of `load_data` (loader.py lines 91-101): a present flag
is ANDed in; an absent `hlt_flags` triggers the fallback, whose own
failure merely drops the condition; any other absent flag is skipped. -/
def load_data_base_mask (tree data : Table) : List Bool :=
  SelectionManager.fields.flags.foldl (fun m flag =>
    if containsKey data flag then
      List.zipWith (fun x y => x && y) m (flagMask data flag)
    else if flag = "hlt_flags" then
      match apply_hlt_fallback tree with
      | Except.ok hm => List.zipWith (fun x y => x && y) m hm
      | Except.error _ => m
    else m) (scalarBaseMask data)

/-- The per-final-state extraction loop of `load_data` (loader.py lines
113-131): for every selected row passing the qualifying guard, append the
scaled first entries of the two rjr vectors and the weight
`evtFillWgt * luminosity`. -/
def load_data_extract (data : Table) (lumi : Val) (cmask : List Bool) :
    List Val × List Val × List Val :=
  let idxs := (maskIndices cmask).filter (rowQualifies data)
  (idxs.map (fun i => (getJagged data "rjr_Ms" i).headD 0 *
     ((AnalysisConfig.VARIABLES.lookup "rjr_Ms").getD ⟨1, true⟩).scale),
   idxs.map (fun i => (getJagged data "rjr_Rs" i).headD 0 *
     ((AnalysisConfig.VARIABLES.lookup "rjr_Rs").getD ⟨1, true⟩).scale),
   idxs.map (fun i => getScalar data "evtFillWgt" i * lumi))

/-- The per-flag entries of `load_data` (no key for flags that are absent,
produce no selected rows, or produce no qualifying rows). -/
abbrev LDEntry := List (String × List Val)

/-- The body of `load_data` for one opened file (loader.py lines 75-139):
the bulk `tree.arrays` call — which requests `hlt_flags` and every
final-state flag — either fails, aborting the file, or yields the branch
dict from which the baseline mask and the per-final-state results are
computed. -/
def load_data_file (tree : Table) (final_state_flags : List String)
    (lumi : Val) : Except PyErr (List (String × LDEntry)) := do
  let data ← uprootArrays tree (load_data_branches final_state_flags)
  let bmask := load_data_base_mask tree data
  Except.ok (final_state_flags.foldl (fun acc fs =>
    if containsKey data fs then
      let cmask := List.zipWith (fun x y => x && y) bmask (flagMask data fs)
      if (maskIndices cmask).isEmpty then acc
      else
        match load_data_extract data lumi cmask with
        | (ms, rs, ws) =>
            if ms.isEmpty then acc
            else acc ++ [(fs, [("rjr_Ms", ms), ("rjr_Rs", rs),
                               ("weights", ws)])]
    else acc) [])

/-- `DataLoader.load_data` over a list of (path, tree) pairs (loader.py
lines 72-145): a file whose processing raises is skipped (`except ...
continue`) and contributes nothing. -/
def load_data_files (files : List (String × Table))
    (final_state_flags : List String) (lumi : Val) :
    List (String × String × LDEntry) :=
  files.flatMap (fun pt =>
    match load_data_file pt.2 final_state_flags lumi with
    | Except.ok entries => entries.map (fun e => (e.1, pt.1, e.2))
    | Except.error _ => [])

/-! ## `DataLoader.load_data_unified` (lines 172-273): the baseline mask -/

/-- The fixed branch list of `load_data_unified` (loader.py lines
181-195). -/
def load_data_unified_branches (event_flags : List String) : List String :=
  [ "rjr_Ms", "rjr_Rs", "evtFillWgt", "SV_nHadronic",
    "selCMet", "rjrPTS", "nSelPhotons",
    "HadronicSV_mass", "HadronicSV_dxy", "HadronicSV_dxySig",
    "HadronicSV_pOverE", "HadronicSV_decayAngle", "HadronicSV_cosTheta",
    "HadronicSV_nTracks",
    "LeptonicSV_mass", "LeptonicSV_dxy", "LeptonicSV_dxySig",
    "LeptonicSV_pOverE", "LeptonicSV_decayAngle", "LeptonicSV_cosTheta",
    "selPhoEta", "selPhoWTime" ]
  ++ event_flags ++ SelectionManager.fields.flags

/-- `available_branches = [b for b in branches if b in tree]` (loader.py
line 211). -/
def availableBranches (tree : Table) (branches : List String) :
    List String :=
  branches.filter (containsKey tree)

/-- The branch dict loaded by `load_data_unified` (loader.py lines
211-212): only the available branches are requested, so the read always
succeeds. -/
def unified_data (tree : Table) (event_flags : List String) : Table :=
  match uprootArrays tree
      (availableBranches tree (load_data_unified_branches event_flags)) with
  | Except.ok d => d
  | Except.error _ => []

/-- The baseline mask of `load_data_unified` (loader.py lines 215-224):
scalar cuts, then every *present* selection flag ANDed in; an absent flag
— `hlt_flags` included — is silently dropped, with no fallback. -/
def unified_base_mask (data : Table) : List Bool :=
  SelectionManager.fields.flags.foldl (fun m flag =>
    if containsKey data flag then
      List.zipWith (fun x y => x && y) m (flagMask data flag)
    else m) (scalarBaseMask data)

/-! ## Characterisation of `extract_values`

The imperative accumulation of `_extract_values` is proved equal to a
per-variable comprehension: each variable key present in the data ends up
mapped to the concatenation, over the qualifying selected rows in order,
of its per-row contribution, and likewise for its sibling weight key. -/

/-- The keys of a dict, in order. -/
def keysOf (m : VDict) : List String :=
  m.map Prod.fst

/-- The catalog restricted to the branches present in `data` (the
`if var_key not in data: continue` of loader.py lines 292-293). -/
def dataVars (data : Table) : List (String × VarConfig) :=
  AnalysisConfig.VARIABLES.filter (fun p => containsKey data p.1)

/-- The value key and weight key of each variable, interleaved in catalog
order: the key set (and insertion order) of `extracted_data`. -/
def expandedKeys (vars : List (String × VarConfig)) : List String :=
  vars.flatMap (fun p => [p.1, p.1 ++ "_weights"])

/-- The dict holding, for each variable of `vars`, a value list and a
weight list given by `f` and `g`. -/
def varPairs (vars : List (String × VarConfig))
    (f g : String × VarConfig → List Val) : VDict :=
  vars.flatMap (fun p => [(p.1, f p), (p.1 ++ "_weights", g p)])

theorem keysOf_append (m₁ m₂ : VDict) :
    keysOf (m₁ ++ m₂) = keysOf m₁ ++ keysOf m₂ := by
  simp [keysOf]

theorem keysOf_varPairs (vars : List (String × VarConfig))
    (f g : String × VarConfig → List Val) :
    keysOf (varPairs vars f g) = expandedKeys vars := by
  induction vars with
  | nil => rfl
  | cons p tl ih => simp [varPairs, expandedKeys, keysOf] at ih ⊢; exact ih

theorem ensureAppend_of_not_mem (m : VDict) (k : String) (vs : List Val)
    (h : k ∉ keysOf m) : ensureAppend m k vs = m ++ [(k, vs)] := by
  induction m with
  | nil => rfl
  | cons hd tl ih =>
      obtain ⟨k₀, xs⟩ := hd
      simp [keysOf] at h
      have hne : k₀ ≠ k := fun e => h.1 e.symm
      simp [ensureAppend, hne, ih (by simpa [keysOf] using h.2)]

theorem ensureAppend_mid (m₁ m₂ : VDict) (k : String) (xs vs : List Val)
    (h : k ∉ keysOf m₁) :
    ensureAppend (m₁ ++ (k, xs) :: m₂) k vs = m₁ ++ (k, xs ++ vs) :: m₂ := by
  induction m₁ with
  | nil => simp [ensureAppend]
  | cons hd tl ih =>
      obtain ⟨k₀, ys⟩ := hd
      simp [keysOf] at h
      have hne : k₀ ≠ k := fun e => h.1 e.symm
      simp [ensureAppend, hne, ih (by simpa [keysOf] using h.2)]

theorem mem_expandedKeys_of_mem {vars : List (String × VarConfig)}
    {p : String × VarConfig} (h : p ∈ vars) :
    p.1 ∈ expandedKeys vars ∧ p.1 ++ "_weights" ∈ expandedKeys vars := by
  constructor <;> (simp only [expandedKeys, List.mem_flatMap]; exact ⟨p, h, by simp⟩)

/-- The 38 value/weight keys of the full catalog are pairwise distinct. -/
theorem nodup_expandedKeys_VARIABLES :
    (expandedKeys AnalysisConfig.VARIABLES).Nodup := by decide

/-- No catalog variable is named `weights` (so the guard of loader.py line
297 never suppresses a weight array). -/
theorem VARIABLES_ne_weights :
    ∀ p ∈ AnalysisConfig.VARIABLES, p.1 ≠ "weights" := by decide

/-- No catalog variable name ends in `_weights`. -/
theorem VARIABLES_not_endsWithWeights :
    ∀ p ∈ AnalysisConfig.VARIABLES, endsWithWeights p.1 = false := by decide

/-- No catalog variable name collides with the weight key of a catalog
variable. -/
theorem VARIABLES_var_ne_weightsKey :
    ∀ p ∈ AnalysisConfig.VARIABLES, ∀ q ∈ AnalysisConfig.VARIABLES,
      p.1 ≠ q.1 ++ "_weights" := by decide

theorem expandedKeys_filter_sublist (vars : List (String × VarConfig))
    (q : String × VarConfig → Bool) :
    List.Sublist (expandedKeys (vars.filter q)) (expandedKeys vars) := by
  induction vars with
  | nil => simp [expandedKeys]
  | cons p tl ih =>
      by_cases hq : q p
      · simp only [expandedKeys, List.filter_cons, hq, if_true,
          List.flatMap_cons, List.cons_append, List.nil_append]
        exact (ih.cons₂ _).cons₂ _
      · simp only [expandedKeys, List.filter_cons, hq, Bool.false_eq_true,
          if_false, List.flatMap_cons]
        exact List.Sublist.trans ih (List.sublist_append_right _ _)

theorem nodup_expandedKeys_dataVars (data : Table) :
    (expandedKeys (dataVars data)).Nodup :=
  nodup_expandedKeys_VARIABLES.sublist
    (expandedKeys_filter_sublist _ _)

theorem dataVars_ne_weights (data : Table) :
    ∀ p ∈ dataVars data, p.1 ≠ "weights" := by
  intro p hp
  exact VARIABLES_ne_weights p (List.mem_of_mem_filter hp)

theorem dataVars_containsKey (data : Table) :
    ∀ p ∈ dataVars data, containsKey data p.1 = true := by
  intro p hp
  unfold dataVars at hp
  exact (List.mem_filter.mp hp).2

/-- Processing the first qualifying row: starting from a dict that holds
none of the keys of `vars`, the catalog fold appends, for each variable in
order, its value pair and its weight pair. -/
theorem foldl_processVar_fresh (data : Table) (lumi : Val) (is_data : Bool)
    (i : ℕ) :
    ∀ (vars : List (String × VarConfig)) (A : VDict),
    (∀ p ∈ vars, containsKey data p.1 = true ∧ p.1 ≠ "weights") →
    (∀ s ∈ expandedKeys vars, s ∉ keysOf A) →
    (expandedKeys vars).Nodup →
    vars.foldl (processVar data lumi is_data i) A =
      A ++ varPairs vars (fun p => rowContrib data p.1 p.2 i)
        (fun p => rowWeightChunk data p.1 p.2 i
          (baseWeight data lumi is_data i)) := by
  intro vars
  induction vars with
  | nil => intro A _ _ _; simp [varPairs]
  | cons p tl ih =>
      intro A hc hdisj hnd
      obtain ⟨k, cfg⟩ := p
      have hck : containsKey data k = true := (hc _ (List.mem_cons_self _ _)).1
      have hkw : k ≠ "weights" := (hc _ (List.mem_cons_self _ _)).2
      have hkA : k ∉ keysOf A := by
        refine hdisj k ?_
        exact (mem_expandedKeys_of_mem (List.mem_cons_self _ _)).1
      have hkwA : k ++ "_weights" ∉ keysOf A := by
        refine hdisj _ ?_
        exact (mem_expandedKeys_of_mem (List.mem_cons_self _ _)).2
      have hexp : expandedKeys ((k, cfg) :: tl) =
          k :: (k ++ "_weights") :: expandedKeys tl := by
        simp [expandedKeys]
      rw [hexp] at hdisj hnd
      have hkkw : k ≠ k ++ "_weights" := by
        have := hnd.not_mem (a := k)
        simp at this
        exact fun e => this.1 e
      have hstep : processVar data lumi is_data i A (k, cfg) =
          A ++ [(k, rowContrib data k cfg i),
                (k ++ "_weights", rowWeightChunk data k cfg i
                  (baseWeight data lumi is_data i))] := by
        simp only [processVar, hck, if_true, hkw, ne_eq, not_false_iff,
          if_true]
        rw [ensureAppend_of_not_mem _ _ _ hkA,
          ensureAppend_of_not_mem, List.append_assoc]
        · rfl
        · rw [keysOf_append]
          intro hmem
          rcases List.mem_append.mp hmem with hm | hm
          · exact hkwA hm
          · have he : k ++ "_weights" = k := by simpa [keysOf] using hm
            exact hkkw he.symm
      rw [List.foldl_cons, hstep, ih]
      · simp [varPairs, List.append_assoc]
      · exact fun q hq => hc q (List.mem_cons_of_mem _ hq)
      · intro s hs
        rw [keysOf_append]
        have hsk : s ≠ k := by
          rintro rfl
          exact (hnd.not_mem (List.mem_cons_of_mem _ hs)).elim
        have hskw : s ≠ k ++ "_weights" := by
          rintro rfl
          exact ((List.nodup_cons.mp hnd).2.not_mem hs).elim
        intro hmem
        rcases List.mem_append.mp hmem with hm | hm
        · exact hdisj s (by simp [hs]) hm
        · have he : s = k ∨ s = k ++ "_weights" := by simpa [keysOf] using hm
          rcases he with h | h
          · exact hsk h
          · exact hskw h
      · exact ((List.nodup_cons.mp hnd).2.of_cons)

/-- Processing a later qualifying row: when the dict already holds exactly
the keys of `vars` (after an untouched prefix `A`), the catalog fold
appends each variable's new contribution to its two lists in place. -/
theorem foldl_processVar_update (data : Table) (lumi : Val) (is_data : Bool)
    (i : ℕ) :
    ∀ (vars : List (String × VarConfig)) (A : VDict)
      (f g : String × VarConfig → List Val),
    (∀ p ∈ vars, containsKey data p.1 = true ∧ p.1 ≠ "weights") →
    (∀ s ∈ expandedKeys vars, s ∉ keysOf A) →
    (expandedKeys vars).Nodup →
    vars.foldl (processVar data lumi is_data i) (A ++ varPairs vars f g) =
      A ++ varPairs vars (fun p => f p ++ rowContrib data p.1 p.2 i)
        (fun p => g p ++ rowWeightChunk data p.1 p.2 i
          (baseWeight data lumi is_data i)) := by
  intro vars
  induction vars with
  | nil => intro A f g _ _ _; simp [varPairs]
  | cons p tl ih =>
      intro A f g hc hdisj hnd
      obtain ⟨k, cfg⟩ := p
      have hck : containsKey data k = true := (hc _ (List.mem_cons_self _ _)).1
      have hkw : k ≠ "weights" := (hc _ (List.mem_cons_self _ _)).2
      have hkA : k ∉ keysOf A := by
        refine hdisj k ?_
        exact (mem_expandedKeys_of_mem (List.mem_cons_self _ _)).1
      have hkwA : k ++ "_weights" ∉ keysOf A := by
        refine hdisj _ ?_
        exact (mem_expandedKeys_of_mem (List.mem_cons_self _ _)).2
      have hexp : expandedKeys ((k, cfg) :: tl) =
          k :: (k ++ "_weights") :: expandedKeys tl := by
        simp [expandedKeys]
      rw [hexp] at hdisj hnd
      have hkkw : k ≠ k ++ "_weights" := by
        have := hnd.not_mem (a := k)
        simp at this
        exact fun e => this.1 e
      have hpairs : A ++ varPairs ((k, cfg) :: tl) f g =
          A ++ (k, f (k, cfg)) :: (k ++ "_weights", g (k, cfg)) ::
            varPairs tl f g := by
        simp [varPairs]
      have hstep : processVar data lumi is_data i
          (A ++ varPairs ((k, cfg) :: tl) f g) (k, cfg) =
          (A ++ [(k, f (k, cfg) ++ rowContrib data k cfg i),
                 (k ++ "_weights", g (k, cfg) ++ rowWeightChunk data k cfg i
                   (baseWeight data lumi is_data i))]) ++ varPairs tl f g := by
        rw [hpairs]
        simp only [processVar, hck, if_true, hkw, ne_eq, not_false_iff,
          if_true]
        rw [ensureAppend_mid _ _ _ _ _ hkA]
        have hsplit : A ++ (k, f (k, cfg) ++ rowContrib data k cfg i) ::
            (k ++ "_weights", g (k, cfg)) :: varPairs tl f g =
            (A ++ [(k, f (k, cfg) ++ rowContrib data k cfg i)]) ++
              (k ++ "_weights", g (k, cfg)) :: varPairs tl f g := by
          simp
        rw [hsplit, ensureAppend_mid]
        · simp
        · rw [keysOf_append]
          intro hmem
          rcases List.mem_append.mp hmem with hm | hm
          · exact hkwA hm
          · have he : k ++ "_weights" = k := by simpa [keysOf] using hm
            exact hkkw he.symm
      rw [List.foldl_cons, hstep, ih]
      · simp [varPairs, List.append_assoc]
      · exact fun q hq => hc q (List.mem_cons_of_mem _ hq)
      · intro s hs
        rw [keysOf_append]
        have hsk : s ≠ k := by
          rintro rfl
          exact (hnd.not_mem (List.mem_cons_of_mem _ hs)).elim
        have hskw : s ≠ k ++ "_weights" := by
          rintro rfl
          exact ((List.nodup_cons.mp hnd).2.not_mem hs).elim
        intro hmem
        rcases List.mem_append.mp hmem with hm | hm
        · exact hdisj s (by simp [hs]) hm
        · have he : s = k ∨ s = k ++ "_weights" := by simpa [keysOf] using hm
          rcases he with h | h
          · exact hsk h
          · exact hskw h
      · exact ((List.nodup_cons.mp hnd).2.of_cons)

theorem foldl_skip_eq_foldl_filter {α β : Type} (q : α → Bool)
    (h : β → α → β) :
    ∀ (l : List α) (b : β),
    (∀ b₀ a, q a = false → h b₀ a = b₀) →
    l.foldl h b = (l.filter q).foldl h b := by
  intro l
  induction l with
  | nil => intro b _; rfl
  | cons a tl ih =>
      intro b hskip
      by_cases hq : q a
      · simp [List.filter_cons, hq, ih _ hskip]
      · simp only [Bool.not_eq_true] at hq
        simp [List.filter_cons, hq, hskip b a hq, ih _ hskip]

theorem foldl_congr_fn {α β : Type} (h₁ h₂ : β → α → β) (l : List α)
    (b : β) (he : ∀ b₀ a, a ∈ l → h₁ b₀ a = h₂ b₀ a) :
    l.foldl h₁ b = l.foldl h₂ b := by
  induction l generalizing b with
  | nil => rfl
  | cons a tl ih =>
      rw [List.foldl_cons, List.foldl_cons, he b a (by simp)]
      exact ih _ (fun b₀ a₀ ha₀ => he b₀ a₀ (by simp [ha₀]))

/-- The catalog fold of one qualifying row, restricted to the variables
present in `data` (absent variables are skipped by `processVar`). -/
def rowProcess (data : Table) (lumi : Val) (is_data : Bool) (st : VDict)
    (i : ℕ) : VDict :=
  (dataVars data).foldl (processVar data lumi is_data i) st

theorem rowStep_eq_rowProcess (data : Table) (lumi : Val) (is_data : Bool)
    (st : VDict) (i : ℕ) (hq : rowQualifies data i = true) :
    rowStep data lumi is_data st i = rowProcess data lumi is_data st i := by
  unfold rowStep rowProcess dataVars
  rw [if_pos hq]
  exact foldl_skip_eq_foldl_filter _ _ _ _
    (fun b₀ p hp => by simp [processVar, hp])

/-- Iterating the per-row update over further qualifying rows accumulates
the per-row contributions by concatenation. -/
theorem foldl_rowProcess_iter (data : Table) (lumi : Val) (is_data : Bool) :
    ∀ (idxs : List ℕ) (f g : String × VarConfig → List Val),
    idxs.foldl (rowProcess data lumi is_data) (varPairs (dataVars data) f g) =
      varPairs (dataVars data)
        (fun p => f p ++ idxs.flatMap (fun i => rowContrib data p.1 p.2 i))
        (fun p => g p ++ idxs.flatMap (fun i => rowWeightChunk data p.1 p.2 i
          (baseWeight data lumi is_data i))) := by
  intro idxs
  induction idxs with
  | nil =>
      intro f g
      simp
  | cons j rest ih =>
      intro f g
      rw [List.foldl_cons]
      have hstep : rowProcess data lumi is_data
          (varPairs (dataVars data) f g) j =
          varPairs (dataVars data)
            (fun p => f p ++ rowContrib data p.1 p.2 j)
            (fun p => g p ++ rowWeightChunk data p.1 p.2 j
              (baseWeight data lumi is_data j)) := by
        have := foldl_processVar_update data lumi is_data j (dataVars data)
          [] f g
          (fun p hp => ⟨dataVars_containsKey data p hp,
            dataVars_ne_weights data p hp⟩)
          (by intro s _ hs; simp [keysOf] at hs)
          (nodup_expandedKeys_dataVars data)
        simpa [rowProcess] using this
      rw [hstep, ih]
      congr 1
      · funext p
        simp [List.append_assoc]
      · funext p
        simp [List.append_assoc]

/-- Closed form of `_extract_values`: with no qualifying selected row the
dict stays empty; otherwise every variable present in the data is mapped
to the concatenation of its per-row contributions over the qualifying
rows in order, interleaved with its per-row weight lists. -/
theorem extract_values_eq (data : Table) (mask : List Bool)
    (is_data : Bool) (lumi : Val) :
    extract_values data mask is_data lumi =
      if qualifyingIndices data mask = [] then [] else
        varPairs (dataVars data)
          (fun p => (qualifyingIndices data mask).flatMap
            (fun i => rowContrib data p.1 p.2 i))
          (fun p => (qualifyingIndices data mask).flatMap
            (fun i => rowWeightChunk data p.1 p.2 i
              (baseWeight data lumi is_data i))) := by
  have h1 : extract_values data mask is_data lumi =
      (qualifyingIndices data mask).foldl
        (rowStep data lumi is_data) [] := by
    unfold extract_values qualifyingIndices
    exact foldl_skip_eq_foldl_filter _ _ _ _
      (fun st i hi => by simp [rowStep, hi])
  have h2 : (qualifyingIndices data mask).foldl
      (rowStep data lumi is_data) [] =
      (qualifyingIndices data mask).foldl
        (rowProcess data lumi is_data) [] := by
    apply foldl_congr_fn
    intro st i hi
    have hq : rowQualifies data i = true := by
      unfold qualifyingIndices at hi
      exact List.of_mem_filter hi
    exact rowStep_eq_rowProcess data lumi is_data st i hq
  rw [h1, h2]
  rcases hql : qualifyingIndices data mask with _ | ⟨j, rest⟩
  · simp
  · rw [if_neg (by simp)]
    rw [List.foldl_cons]
    have hfirst : rowProcess data lumi is_data [] j =
        varPairs (dataVars data)
          (fun p => rowContrib data p.1 p.2 j)
          (fun p => rowWeightChunk data p.1 p.2 j
            (baseWeight data lumi is_data j)) := by
      have := foldl_processVar_fresh data lumi is_data j (dataVars data) []
        (fun p hp => ⟨dataVars_containsKey data p hp,
          dataVars_ne_weights data p hp⟩)
        (by intro s _ hs; simp [keysOf] at hs)
        (nodup_expandedKeys_dataVars data)
      simpa [rowProcess] using this
    rw [hfirst, foldl_rowProcess_iter]
    simp only [List.flatMap_cons]

theorem lookup_varPairs (vars : List (String × VarConfig))
    (f g : String × VarConfig → List Val)
    (hnd : (expandedKeys vars).Nodup) (k : String) (cfg : VarConfig)
    (hmem : (k, cfg) ∈ vars) :
    (varPairs vars f g).lookup k = some (f (k, cfg)) ∧
    (varPairs vars f g).lookup (k ++ "_weights") = some (g (k, cfg)) := by
  induction vars with
  | nil => cases hmem
  | cons p tl ih =>
      obtain ⟨k₀, c₀⟩ := p
      have hexp : expandedKeys ((k₀, c₀) :: tl) =
          k₀ :: (k₀ ++ "_weights") :: expandedKeys tl := by
        simp [expandedKeys]
      rw [hexp] at hnd
      have hnd0 := List.nodup_cons.mp hnd
      have hnd1 := List.nodup_cons.mp hnd0.2
      have hk0w : k₀ ≠ k₀ ++ "_weights" := by
        intro e; exact hnd0.1 (e ▸ List.mem_cons_self _ _)
      have hvp : varPairs ((k₀, c₀) :: tl) f g =
          (k₀, f (k₀, c₀)) :: (k₀ ++ "_weights", g (k₀, c₀)) ::
            varPairs tl f g := by
        simp [varPairs]
      rcases List.mem_cons.mp hmem with he | htl
      · have hk : k = k₀ := congrArg Prod.fst he
        have hc : cfg = c₀ := congrArg Prod.snd he
        subst hk; subst hc
        rw [hvp]
        constructor
        · simp [List.lookup]
        · have hb : (k ++ "_weights" == k) = false :=
            beq_eq_false_iff_ne.mpr (Ne.symm hk0w)
          simp [List.lookup, hb]
      · have hkmem := mem_expandedKeys_of_mem htl
        have hkk0 : k ≠ k₀ := by
          intro e
          exact hnd0.1 (by simp [e ▸ hkmem.1])
        have hkk0w : k ≠ k₀ ++ "_weights" := by
          intro e
          exact hnd1.1 (e ▸ hkmem.1)
        have hkwk0 : k ++ "_weights" ≠ k₀ := by
          intro e
          exact hnd0.1 (by simp [e ▸ hkmem.2])
        have hkwk0w : k ++ "_weights" ≠ k₀ ++ "_weights" := by
          intro e
          exact hnd1.1 (e ▸ hkmem.2)
        rw [hvp]
        have hih := ih hnd1.2 htl
        have hb1 : (k == k₀) = false := beq_eq_false_iff_ne.mpr hkk0
        have hb2 : (k == k₀ ++ "_weights") = false :=
          beq_eq_false_iff_ne.mpr hkk0w
        have hb3 : (k ++ "_weights" == k₀) = false :=
          beq_eq_false_iff_ne.mpr hkwk0
        have hb4 : (k ++ "_weights" == k₀ ++ "_weights") = false :=
          beq_eq_false_iff_ne.mpr hkwk0w
        constructor
        · simpa [List.lookup, hb1, hb2] using hih.1
        · simpa [List.lookup, hb3, hb4] using hih.2

theorem lookup_varPairs_not_mem (vars : List (String × VarConfig))
    (f g : String × VarConfig → List Val) (s : String)
    (hs : s ∉ expandedKeys vars) :
    (varPairs vars f g).lookup s = none := by
  induction vars with
  | nil => rfl
  | cons p tl ih =>
      have hexp : expandedKeys (p :: tl) =
          p.1 :: (p.1 ++ "_weights") :: expandedKeys tl := by
        simp [expandedKeys]
      rw [hexp] at hs
      simp only [List.mem_cons, not_or] at hs
      obtain ⟨hs1, hs2, hs3⟩ := hs
      have hvp : varPairs (p :: tl) f g =
          (p.1, f p) :: (p.1 ++ "_weights", g p) :: varPairs tl f g := by
        simp [varPairs]
      rw [hvp]
      have hb1 : (s == p.1) = false := beq_eq_false_iff_ne.mpr hs1
      have hb2 : (s == p.1 ++ "_weights") = false :=
        beq_eq_false_iff_ne.mpr hs2
      simp [List.lookup, hb1, hb2, ih hs3]

/-- Lookup form of the `_extract_values` characterisation: each variable
present in the data is mapped to its flattened per-row contributions, its
weight sibling to the matching per-row weight lists. -/
theorem extract_values_lookup (data : Table) (mask : List Bool)
    (is_data : Bool) (lumi : Val) (k : String) (cfg : VarConfig)
    (hmem : (k, cfg) ∈ AnalysisConfig.VARIABLES)
    (hck : containsKey data k = true)
    (hq : qualifyingIndices data mask ≠ []) :
    (extract_values data mask is_data lumi).lookup k =
      some ((qualifyingIndices data mask).flatMap
        (fun i => rowContrib data k cfg i)) ∧
    (extract_values data mask is_data lumi).lookup (k ++ "_weights") =
      some ((qualifyingIndices data mask).flatMap
        (fun i => rowWeightChunk data k cfg i
          (baseWeight data lumi is_data i))) := by
  have hmemd : (k, cfg) ∈ dataVars data := by
    unfold dataVars
    exact List.mem_filter.mpr ⟨hmem, hck⟩
  rw [extract_values_eq, if_neg hq]
  exact lookup_varPairs _ _ _ (nodup_expandedKeys_dataVars data) k cfg hmemd

/-- When a variable's branch is absent (or no row qualifies) it gets no
key in the extracted dict. -/
theorem extract_values_lookup_none (data : Table) (mask : List Bool)
    (is_data : Bool) (lumi : Val) (k : String) (cfg : VarConfig)
    (hmem : (k, cfg) ∈ AnalysisConfig.VARIABLES)
    (h : containsKey data k = false ∨ qualifyingIndices data mask = []) :
    (extract_values data mask is_data lumi).lookup k = none := by
  rw [extract_values_eq]
  rcases h with hck | hql
  · by_cases hql : qualifyingIndices data mask = []
    · simp [hql]
    · rw [if_neg hql]
      apply lookup_varPairs_not_mem
      intro hs
      unfold expandedKeys at hs
      rcases List.mem_flatMap.mp hs with ⟨p, hp, hkp⟩
      have hpck := dataVars_containsKey data p hp
      rcases List.mem_cons.mp hkp with he | he
      · rw [he] at hck
        rw [hpck] at hck
        cases hck
      · have he : k = p.1 ++ "_weights" := by simpa using he
        have h2 : p ∈ AnalysisConfig.VARIABLES := List.mem_of_mem_filter hp
        exact absurd he
          (VARIABLES_var_ne_weightsKey (k, cfg) hmem p h2)
  · simp [hql]

/-! ## Transfer of the characterisation through `_process_extracted_data` -/

theorem endsWithWeights_append (k : String) :
    endsWithWeights (k ++ "_weights") = true := by
  unfold endsWithWeights
  have hdata : (k ++ "_weights").toList = k.toList ++ "_weights".toList := by
    simp [String.toList, String.data_append]
  rw [hdata]
  exact List.isSuffixOf_iff_suffix.mpr (List.suffix_append _ _)

/-- The contribution of one dict entry to the rebuild fold. -/
def processChunk (ev : VDict) (p : String × List Val) : VDict :=
  if endsWithWeights p.1 = false then
    (p.1, p.2) :: (match ev.lookup (p.1 ++ "_weights") with
      | some ws => [(p.1 ++ "_weights", ws)]
      | none => [])
  else []

theorem processStep_eq (ev : VDict) (acc : VDict) (p : String × List Val) :
    processStep ev acc p = acc ++ processChunk ev p := by
  unfold processStep processChunk
  by_cases hw : endsWithWeights p.1 = false
  · rw [if_pos hw, if_pos hw]
    cases ev.lookup (p.1 ++ "_weights") <;> simp
  · rw [if_neg hw, if_neg hw]
    simp

theorem foldl_processStep_eq_flatMap (ev : VDict) :
    ∀ (l : VDict) (A : VDict),
    l.foldl (processStep ev) A = A ++ l.flatMap (processChunk ev) := by
  intro l
  induction l with
  | nil => intro A; simp
  | cons p tl ih =>
      intro A
      rw [List.foldl_cons, processStep_eq, ih, List.flatMap_cons,
        List.append_assoc]

/-- Rebuilding a dict of variable/weight pairs reproduces it unchanged. -/
theorem flatMap_processChunk_varPairs
    (vars : List (String × VarConfig)) (f g : String × VarConfig → List Val)
    (hnd : (expandedKeys vars).Nodup)
    (hw : ∀ p ∈ vars, endsWithWeights p.1 = false) :
    ∀ (vs : List (String × VarConfig)), (∀ p ∈ vs, p ∈ vars) →
    (varPairs vs f g).flatMap (processChunk (varPairs vars f g)) =
      varPairs vs f g := by
  intro vs
  induction vs with
  | nil => intro _; simp [varPairs]
  | cons p tl ih =>
      intro hsub
      have hp : p ∈ vars := hsub p (List.mem_cons_self _ _)
      have hvp : varPairs (p :: tl) f g =
          (p.1, f p) :: (p.1 ++ "_weights", g p) :: varPairs tl f g := by
        simp [varPairs]
      rw [hvp, List.flatMap_cons, List.flatMap_cons]
      have h1 : processChunk (varPairs vars f g) (p.1, f p) =
          [(p.1, f p), (p.1 ++ "_weights", g p)] := by
        unfold processChunk
        rw [if_pos (hw p hp)]
        rw [(lookup_varPairs vars f g hnd p.1 p.2 (by simpa using hp)).2]
      have h2 : processChunk (varPairs vars f g) (p.1 ++ "_weights", g p) =
          [] := by
        unfold processChunk
        rw [if_neg (by simp [endsWithWeights_append])]
      rw [h1, h2, ih (fun q hq => hsub q (List.mem_cons_of_mem _ hq))]
      simp [hvp]

/-- `_process_extracted_data` on a dict of variable/weight pairs that
contains the primary variable: the dict is reproduced and the default
`weights` alias appended. -/
theorem process_extracted_varPairs
    (vars : List (String × VarConfig)) (f g : String × VarConfig → List Val)
    (hnd : (expandedKeys vars).Nodup)
    (hw : ∀ p ∈ vars, endsWithWeights p.1 = false)
    (cfg0 : VarConfig) (hrjr : ("rjr_Ms", cfg0) ∈ vars) :
    process_extracted_data (varPairs vars f g) =
      some (varPairs vars f g ++ [("weights", g ("rjr_Ms", cfg0))]) := by
  have hlk := lookup_varPairs vars f g hnd "rjr_Ms" cfg0 hrjr
  have hkey : ("rjr_Ms_weights" : String) = "rjr_Ms" ++ "_weights" := by
    decide
  unfold process_extracted_data
  rw [hlk.1]
  simp only [Option.isSome_some]
  rw [if_neg (by simp)]
  rw [foldl_processStep_eq_flatMap, List.nil_append,
    flatMap_processChunk_varPairs vars f g hnd hw vars (fun q hq => hq),
    hkey, hlk.2]

theorem lookup_append_some (m₁ m₂ : VDict) (k : String) (v : List Val)
    (h : m₁.lookup k = some v) : (m₁ ++ m₂).lookup k = some v := by
  induction m₁ with
  | nil => cases h
  | cons hd tl ih =>
      obtain ⟨k₀, xs⟩ := hd
      by_cases hb : k = k₀
      · subst hb
        simpa [List.lookup] using h
      · have hbf : (k == k₀) = false := beq_eq_false_iff_ne.mpr hb
        simp only [List.cons_append, List.lookup, hbf] at h ⊢
        exact ih h

/-- Lookup form of the full extraction: the composition
`_process_extracted_data ∘ _extract_values` maps every present variable to
its flattened contributions and its weight sibling to the matching weight
lists. -/
theorem processed_lookup (data : Table) (mask : List Bool)
    (is_data : Bool) (lumi : Val) (fd : VDict)
    (hfd : process_extracted_data (extract_values data mask is_data lumi) =
      some fd)
    (k : String) (cfg : VarConfig)
    (hmem : (k, cfg) ∈ AnalysisConfig.VARIABLES)
    (hck : containsKey data k = true) :
    qualifyingIndices data mask ≠ [] ∧
    fd.lookup k = some ((qualifyingIndices data mask).flatMap
      (fun i => rowContrib data k cfg i)) ∧
    fd.lookup (k ++ "_weights") = some ((qualifyingIndices data mask).flatMap
      (fun i => rowWeightChunk data k cfg i
        (baseWeight data lumi is_data i))) := by
  have hrjrmem : ("rjr_Ms", (⟨1/1000, true⟩ : VarConfig)) ∈
      AnalysisConfig.VARIABLES := by
    unfold AnalysisConfig.VARIABLES
    exact List.mem_cons_self _ _
  have hq : qualifyingIndices data mask ≠ [] := by
    intro hql
    have hnone := extract_values_lookup_none data mask is_data lumi
      "rjr_Ms" ⟨1/1000, true⟩ hrjrmem (Or.inr hql)
    unfold process_extracted_data at hfd
    rw [hnone] at hfd
    simp at hfd
  have hrjrck : containsKey data "rjr_Ms" = true := by
    by_contra hckf
    have hckf : containsKey data "rjr_Ms" = false := by
      simpa using hckf
    have hnone := extract_values_lookup_none data mask is_data lumi
      "rjr_Ms" ⟨1/1000, true⟩ hrjrmem (Or.inl hckf)
    unfold process_extracted_data at hfd
    rw [hnone] at hfd
    simp at hfd
  have hrjrmemd : ("rjr_Ms", (⟨1/1000, true⟩ : VarConfig)) ∈ dataVars data := by
    unfold dataVars
    exact List.mem_filter.mpr ⟨hrjrmem, hrjrck⟩
  have hmemd : (k, cfg) ∈ dataVars data := by
    unfold dataVars
    exact List.mem_filter.mpr ⟨hmem, hck⟩
  have hev : extract_values data mask is_data lumi =
      varPairs (dataVars data)
        (fun p => (qualifyingIndices data mask).flatMap
          (fun i => rowContrib data p.1 p.2 i))
        (fun p => (qualifyingIndices data mask).flatMap
          (fun i => rowWeightChunk data p.1 p.2 i
            (baseWeight data lumi is_data i))) := by
    rw [extract_values_eq, if_neg hq]
  rw [hev] at hfd
  rw [process_extracted_varPairs _ _ _ (nodup_expandedKeys_dataVars data)
    (fun p hp => VARIABLES_not_endsWithWeights p (List.mem_of_mem_filter hp))
    ⟨1/1000, true⟩ hrjrmemd] at hfd
  have hfd' := Option.some.inj hfd
  subst hfd'
  have hlk := lookup_varPairs (dataVars data)
    (fun p => (qualifyingIndices data mask).flatMap
      (fun i => rowContrib data p.1 p.2 i))
    (fun p => (qualifyingIndices data mask).flatMap
      (fun i => rowWeightChunk data p.1 p.2 i
        (baseWeight data lumi is_data i)))
    (nodup_expandedKeys_dataVars data) k cfg hmemd
  exact ⟨hq, lookup_append_some _ _ _ _ hlk.1,
    lookup_append_some _ _ _ _ hlk.2⟩

/-! ## Per-row facts -/

theorem perObject_not_rjr (k : String) (h : isPerObjectKey k = true) :
    isRjrKey k = false := by
  by_contra hf
  have hrjr : isRjrKey k = true := by simpa using hf
  unfold isRjrKey at hrjr
  have : k = "rjr_Ms" ∨ k = "rjr_Rs" := by simpa using hrjr
  rcases this with rfl | rfl
  · exact absurd h (by decide)
  · exact absurd h (by decide)

theorem rowContrib_perObject (data : Table) (k : String) (cfg : VarConfig)
    (hpo : isPerObjectKey k = true) (i : ℕ) :
    rowContrib data k cfg i = (getJagged data k i).map (fun v => v * cfg.scale) := by
  unfold rowContrib
  rw [perObject_not_rjr k hpo, hpo]
  simp

theorem rowWeightChunk_perObject (data : Table) (k : String)
    (cfg : VarConfig) (hpo : isPerObjectKey k = true) (i : ℕ) (w : Val) :
    rowWeightChunk data k cfg i w =
      List.replicate (getJagged data k i).length w := by
  unfold rowWeightChunk
  rw [perObject_not_rjr k hpo, hpo]
  simp [List.map_const']

theorem mem_rowWeightChunk (data : Table) (k : String) (cfg : VarConfig)
    (i : ℕ) (w x : Val) (hx : x ∈ rowWeightChunk data k cfg i w) : x = w := by
  unfold rowWeightChunk at hx
  by_cases h1 : isRjrKey k = true
  · rw [if_pos h1] at hx
    by_cases h2 : 0 < (getJagged data k i).length
    · rw [if_pos h2] at hx
      simpa using hx
    · rw [if_neg h2] at hx
      cases hx
  · rw [if_neg h1] at hx
    by_cases h2 : isPerObjectKey k = true
    · rw [if_pos h2] at hx
      rcases List.mem_map.mp hx with ⟨_, _, he⟩
      exact he.symm
    · rw [if_neg h2] at hx
      by_cases h3 : cfg.is_vector = false
      · rw [if_pos h3] at hx
        simpa using hx
      · rw [if_neg h3] at hx
        cases hx

theorem rowWeightChunk_length (data : Table) (k : String) (cfg : VarConfig)
    (i : ℕ) (w : Val) :
    (rowWeightChunk data k cfg i w).length = (rowContrib data k cfg i).length := by
  unfold rowWeightChunk rowContrib
  by_cases h1 : isRjrKey k = true
  · rw [if_pos h1, if_pos h1]
    by_cases h2 : 0 < (getJagged data k i).length
    · rw [if_pos h2, if_pos h2]
      rfl
    · rw [if_neg h2, if_neg h2]
  · rw [if_neg h1, if_neg h1]
    by_cases h2 : isPerObjectKey k = true
    · rw [if_pos h2, if_pos h2]
      simp
    · rw [if_neg h2, if_neg h2]
      by_cases h3 : cfg.is_vector = false
      · rw [if_pos h3, if_pos h3]
        rfl
      · rw [if_neg h3, if_neg h3]

theorem flatMap_length_congr {α : Type} (f g : α → List Val) :
    ∀ (l : List α), (∀ a ∈ l, (f a).length = (g a).length) →
    (l.flatMap f).length = (l.flatMap g).length := by
  intro l
  induction l with
  | nil => intro _; rfl
  | cons a tl ih =>
      intro h
      simp only [List.flatMap_cons, List.length_append]
      rw [h a (List.mem_cons_self _ _),
        ih (fun b hb => h b (List.mem_cons_of_mem _ hb))]

theorem lookup_append_none (m₁ m₂ : VDict) (k : String)
    (h : m₁.lookup k = none) : (m₁ ++ m₂).lookup k = m₂.lookup k := by
  induction m₁ with
  | nil => rfl
  | cons hd tl ih =>
      obtain ⟨k₀, xs⟩ := hd
      by_cases hb : k = k₀
      · subst hb
        simp [List.lookup] at h
      · have hbf : (k == k₀) = false := beq_eq_false_iff_ne.mpr hb
        simp only [List.cons_append, List.lookup, hbf] at h ⊢
        exact ih h

/-- Distinct catalog variables have distinct weight keys. -/
theorem VARIABLES_weightsKey_inj :
    ∀ p ∈ AnalysisConfig.VARIABLES, ∀ q ∈ AnalysisConfig.VARIABLES,
      p.1 ≠ q.1 → p.1 ++ "_weights" ≠ q.1 ++ "_weights" := by decide

/-- Shape of a successful `_process_extracted_data ∘ _extract_values`
run: at least one qualifying row, and the result is the extracted dict
followed by the default `weights` alias. -/
theorem processed_shape (data : Table) (mask : List Bool)
    (is_data : Bool) (lumi : Val) (fd : VDict)
    (hfd : process_extracted_data (extract_values data mask is_data lumi) =
      some fd) :
    qualifyingIndices data mask ≠ [] ∧
    containsKey data "rjr_Ms" = true ∧
    fd = varPairs (dataVars data)
        (fun p => (qualifyingIndices data mask).flatMap
          (fun i => rowContrib data p.1 p.2 i))
        (fun p => (qualifyingIndices data mask).flatMap
          (fun i => rowWeightChunk data p.1 p.2 i
            (baseWeight data lumi is_data i))) ++
      [("weights", (qualifyingIndices data mask).flatMap
        (fun i => rowWeightChunk data "rjr_Ms" ⟨1/1000, true⟩ i
          (baseWeight data lumi is_data i)))] := by
  have hrjrmem : ("rjr_Ms", (⟨1/1000, true⟩ : VarConfig)) ∈
      AnalysisConfig.VARIABLES := by
    unfold AnalysisConfig.VARIABLES
    exact List.mem_cons_self _ _
  have hq : qualifyingIndices data mask ≠ [] := by
    intro hql
    have hnone := extract_values_lookup_none data mask is_data lumi
      "rjr_Ms" ⟨1/1000, true⟩ hrjrmem (Or.inr hql)
    unfold process_extracted_data at hfd
    rw [hnone] at hfd
    simp at hfd
  have hrjrck : containsKey data "rjr_Ms" = true := by
    by_contra hckf
    have hckf : containsKey data "rjr_Ms" = false := by simpa using hckf
    have hnone := extract_values_lookup_none data mask is_data lumi
      "rjr_Ms" ⟨1/1000, true⟩ hrjrmem (Or.inl hckf)
    unfold process_extracted_data at hfd
    rw [hnone] at hfd
    simp at hfd
  have hrjrmemd : ("rjr_Ms", (⟨1/1000, true⟩ : VarConfig)) ∈ dataVars data := by
    unfold dataVars
    exact List.mem_filter.mpr ⟨hrjrmem, hrjrck⟩
  have hev : extract_values data mask is_data lumi =
      varPairs (dataVars data)
        (fun p => (qualifyingIndices data mask).flatMap
          (fun i => rowContrib data p.1 p.2 i))
        (fun p => (qualifyingIndices data mask).flatMap
          (fun i => rowWeightChunk data p.1 p.2 i
            (baseWeight data lumi is_data i))) := by
    rw [extract_values_eq, if_neg hq]
  rw [hev] at hfd
  rw [process_extracted_varPairs _ _ _ (nodup_expandedKeys_dataVars data)
    (fun p hp => VARIABLES_not_endsWithWeights p (List.mem_of_mem_filter hp))
    ⟨1/1000, true⟩ hrjrmemd] at hfd
  exact ⟨hq, hrjrck, (Option.some.inj hfd).symm⟩

/-! ## The claim theorems -/

/-- The end-to-end scenario of the spec: three rows, the combined mask
selects the first two, simulated sample with row weight 5.0 and
luminosity 10, and the first selected row carries a per-object vector of
length 2 for `HadronicSV_mass`. -/
def scenarioTable : Table :=
  [ ("evtFillWgt", Col.scalar [5, 5, 20]),
    ("rjr_Ms", Col.jagged [[1000], [2000], [3000]]),
    ("rjr_Rs", Col.jagged [[1/2], [1/4], [1]]),
    ("rjrPTS", Col.jagged [[100], [100], [100]]),
    ("HadronicSV_mass", Col.jagged [[10, 20], [], []]),
    ("selCMet", Col.scalar [200, 300, 100]) ]

/-- The extracted dict of the scenario, fully evaluated (kernel reduction
produces the unnormalised products, `norm_num` normalises them). -/
theorem scenario_extract :
    extract_values scenarioTable [true, true, false] false 10 =
      [ ("rjr_Ms", [1, 2]), ("rjr_Ms_weights", [50, 50]),
        ("rjr_Rs", [1/2, 1/4]), ("rjr_Rs_weights", [50, 50]),
        ("HadronicSV_mass", [10, 20]), ("HadronicSV_mass_weights", [50, 50]),
        ("selCMet", [200, 300]), ("selCMet_weights", [50, 50]) ] := by
  have h1 : extract_values scenarioTable [true, true, false] false 10 =
      [ ("rjr_Ms", [1000 * (1/1000), 2000 * (1/1000)]),
        ("rjr_Ms_weights", [5 * 10, 5 * 10]),
        ("rjr_Rs", [1/2 * 1, 1/4 * 1]),
        ("rjr_Rs_weights", [5 * 10, 5 * 10]),
        ("HadronicSV_mass", [10 * 1, 20 * 1]),
        ("HadronicSV_mass_weights", [5 * 10, 5 * 10]),
        ("selCMet", [200 * 1, 300 * 1]),
        ("selCMet_weights", [5 * 10, 5 * 10]) ] := rfl
  rw [h1]
  norm_num

/-- C1: for every selected row that passes the row-level qualifying guard
and every per-object (flattened) variable present in the data, extraction
appends one scaled value per element of the row's array to the variable's
array, and appends the row's base weight once per element — replicated
contiguously, in row order — to the sibling weight array. -/
theorem claim_C1 (data : Table) (mask : List Bool) (is_data : Bool)
    (lumi : Val) (k : String) (cfg : VarConfig)
    (hmem : (k, cfg) ∈ AnalysisConfig.VARIABLES)
    (hpo : isPerObjectKey k = true)
    (hck : containsKey data k = true)
    (hq : qualifyingIndices data mask ≠ []) :
    (extract_values data mask is_data lumi).lookup k =
      some ((qualifyingIndices data mask).flatMap
        (fun i => (getJagged data k i).map (fun v => v * cfg.scale))) ∧
    (extract_values data mask is_data lumi).lookup (k ++ "_weights") =
      some ((qualifyingIndices data mask).flatMap
        (fun i => List.replicate (getJagged data k i).length
          (baseWeight data lumi is_data i))) := by
  have h := extract_values_lookup data mask is_data lumi k cfg hmem hck hq
  constructor
  · rw [h.1]
    simp only [rowContrib_perObject data k cfg hpo]
  · rw [h.2]
    simp only [rowWeightChunk_perObject data k cfg hpo]

/-- C1 witness: on the spec's end-to-end scenario (row weight 5.0,
luminosity 10, per-object vector of length 2) the variable array has
length 2 and the weight array is `[50.0, 50.0]`. -/
theorem claim_C1_witness :
    (extract_values scenarioTable [true, true, false] false 10).lookup
        "HadronicSV_mass" = some [10, 20] ∧
    (extract_values scenarioTable [true, true, false] false 10).lookup
        ("HadronicSV_mass" ++ "_weights") = some [50, 50] := by
  have h := claim_C1 scenarioTable [true, true, false] false 10
    "HadronicSV_mass" ⟨1, true⟩ (by decide) (by decide) (by decide)
    (by decide)
  refine ⟨?_, ?_⟩
  · rw [h.1]
    have h2 : (qualifyingIndices scenarioTable [true, true, false]).flatMap
        (fun i => (getJagged scenarioTable "HadronicSV_mass" i).map
          (fun v => v * (⟨1, true⟩ : VarConfig).scale)) =
        [10 * 1, 20 * 1] := rfl
    rw [h2]
    norm_num
  · rw [h.2]
    have h2 : (qualifyingIndices scenarioTable [true, true, false]).flatMap
        (fun i => List.replicate
          (getJagged scenarioTable "HadronicSV_mass" i).length
          (baseWeight scenarioTable 10 false i)) = [5 * 10, 5 * 10] := rfl
    rw [h2]
    norm_num

/-- C2: every weight emitted by extraction equals 1.0 when the sample is
flagged as data, and rowWeight * luminosity when it is simulated. -/
theorem claim_C2 (data : Table) (mask : List Bool) (is_data : Bool)
    (lumi : Val) (k : String) (cfg : VarConfig)
    (hmem : (k, cfg) ∈ AnalysisConfig.VARIABLES)
    (hck : containsKey data k = true)
    (hq : qualifyingIndices data mask ≠ [])
    (ws : List Val)
    (hws : (extract_values data mask is_data lumi).lookup (k ++ "_weights") =
      some ws) :
    ∀ x ∈ ws, ∃ i ∈ qualifyingIndices data mask,
      x = if is_data then 1 else getScalar data "evtFillWgt" i * lumi := by
  have h := (extract_values_lookup data mask is_data lumi k cfg hmem hck hq).2
  rw [h] at hws
  obtain rfl := Option.some.inj hws
  intro x hx
  rcases List.mem_flatMap.mp hx with ⟨i, hi, hxi⟩
  refine ⟨i, hi, ?_⟩
  have hxw := mem_rowWeightChunk data k cfg i _ x hxi
  simpa [baseWeight] using hxw

/-- C2 witness: on the scenario table (simulated, row weight 5, luminosity
10) the emitted weight 50 comes from a qualifying row with
`evtFillWgt * luminosity = 50`. -/
theorem claim_C2_witness :
    ∃ i ∈ qualifyingIndices scenarioTable [true, true, false],
      (50 : Val) = if false = true then 1
        else getScalar scenarioTable "evtFillWgt" i * 10 := by
  have h := claim_C2 scenarioTable [true, true, false] false 10
    "HadronicSV_mass" ⟨1, true⟩ (by decide) (by decide) (by decide)
    [50, 50] (by rw [scenario_extract]; rfl)
  exact h 50 (by decide)

/-- C3: in every `ObservationSet` produced by extraction, each catalog
variable key present is accompanied by its `{variable}_weights` sibling of
equal length. -/
theorem claim_C3 (data : Table) (mask : List Bool) (is_data : Bool)
    (lumi : Val) (fd : VDict)
    (hfd : process_extracted_data (extract_values data mask is_data lumi) =
      some fd)
    (k : String) (cfg : VarConfig)
    (hmem : (k, cfg) ∈ AnalysisConfig.VARIABLES)
    (xs : List Val) (hxs : fd.lookup k = some xs) :
    ∃ ws, fd.lookup (k ++ "_weights") = some ws ∧ ws.length = xs.length := by
  obtain ⟨hq, hrjrck, hshape⟩ := processed_shape data mask is_data lumi fd hfd
  by_cases hck : containsKey data k = true
  · have h := processed_lookup data mask is_data lumi fd hfd k cfg hmem hck
    refine ⟨_, h.2.2, ?_⟩
    rw [h.2.1] at hxs
    obtain rfl := Option.some.inj hxs
    exact flatMap_length_congr _ _ _
      (fun i _ => rowWeightChunk_length data k cfg i _)
  · have hckf : containsKey data k = false := by simpa using hck
    have hnone : fd.lookup k = none := by
      rw [hshape]
      rw [lookup_append_none]
      · have hkw : k ≠ "weights" := VARIABLES_ne_weights (k, cfg) hmem
        simp [List.lookup, beq_eq_false_iff_ne.mpr hkw]
      · apply lookup_varPairs_not_mem
        intro hs
        unfold expandedKeys at hs
        rcases List.mem_flatMap.mp hs with ⟨p, hp, hkp⟩
        have hpck := dataVars_containsKey data p hp
        have hpv : p ∈ AnalysisConfig.VARIABLES := List.mem_of_mem_filter hp
        rcases List.mem_cons.mp hkp with he | he
        · rw [he] at hckf
          rw [hpck] at hckf
          cases hckf
        · have he₂ : k = p.1 ++ "_weights" := by simpa using he
          exact VARIABLES_var_ne_weightsKey (k, cfg) hmem p hpv he₂
    rw [hnone] at hxs
    cases hxs

/-- The `ObservationSet` produced on the scenario table, key by key. -/
def scenarioFd : VDict :=
  [ ("rjr_Ms", [1, 2]), ("rjr_Ms_weights", [50, 50]),
    ("rjr_Rs", [1/2, 1/4]), ("rjr_Rs_weights", [50, 50]),
    ("HadronicSV_mass", [10, 20]), ("HadronicSV_mass_weights", [50, 50]),
    ("selCMet", [200, 300]), ("selCMet_weights", [50, 50]),
    ("weights", [50, 50]) ]

/-- C3 witness: on the scenario's `ObservationSet`, the `HadronicSV_mass`
key of length 2 is accompanied by a weight array of length 2. -/
theorem claim_C3_witness :
    ∃ ws, scenarioFd.lookup ("HadronicSV_mass" ++ "_weights") = some ws ∧
      ws.length = ([10, 20] : List Val).length :=
  claim_C3 scenarioTable [true, true, false] false 10 scenarioFd
    (by rw [scenario_extract]; rfl)
    "HadronicSV_mass" ⟨1, true⟩ (by decide) [10, 20] (by decide)

theorem mapM_getColumn (k : String) :
    ∀ (ds : List VDict), (∀ d ∈ ds, (d.lookup k).isSome = true) →
    ds.mapM (fun d => getColumn d k) =
      Except.ok (ds.map (fun d => (d.lookup k).getD [])) := by
  intro ds
  induction ds with
  | nil => intro _; rfl
  | cons d tl ih =>
      intro h
      obtain ⟨xs, hxs⟩ := Option.isSome_iff_exists.mp
        (h d (List.mem_cons_self _ _))
      rw [List.mapM_cons, ih (fun d₀ h₀ => h d₀ (List.mem_cons_of_mem _ h₀))]
      simp only [getColumn, hxs, List.map_cons, Option.getD_some]
      rfl

/-- A per-file `ObservationSet` carrying a variable beyond the three that
`combine_data` copies. -/
def c4FileData : VDict :=
  [ ("rjr_Ms", [1]), ("rjr_Ms_weights", [3]),
    ("rjr_Rs", [2]), ("rjr_Rs_weights", [3]),
    ("HadronicSV_mass", [7, 8]), ("HadronicSV_mass_weights", [3, 3]),
    ("weights", [3]) ]

/-- C4 counterexample: the per-file set carries `HadronicSV_mass`, but the
pooled result drops it — `combine_data` copies only `rjr_Ms`, `rjr_Rs`
and `weights`, refuting the claim that no present variable is dropped. -/
theorem claim_C4_counterexample :
    combine_data [c4FileData] =
      Except.ok (some [("rjr_Ms", [1]), ("rjr_Rs", [2]), ("weights", [3])]) ∧
    c4FileData.lookup "HadronicSV_mass" = some [7, 8] ∧
    ([("rjr_Ms", ([1] : List Val)), ("rjr_Rs", [2]),
      ("weights", [3])]).lookup "HadronicSV_mass" = none := by
  refine ⟨rfl, rfl, rfl⟩

/-- C4 (amended): pooling a nonempty region result whose per-file sets all
carry the three default keys yields exactly the concatenations of
`rjr_Ms`, `rjr_Rs` and the default `weights` arrays in iteration order;
every other variable key is dropped from the pooled set. -/
theorem claim_C4 (ds : List VDict) (hne : ds ≠ [])
    (h : ∀ d ∈ ds, (d.lookup "rjr_Ms").isSome = true ∧
      (d.lookup "rjr_Rs").isSome = true ∧
      (d.lookup "weights").isSome = true) :
    combine_data ds = Except.ok (some
      [ ("rjr_Ms", ds.flatMap (fun d => (d.lookup "rjr_Ms").getD [])),
        ("rjr_Rs", ds.flatMap (fun d => (d.lookup "rjr_Rs").getD [])),
        ("weights", ds.flatMap (fun d => (d.lookup "weights").getD [])) ]) ∧
    ∀ k, k ≠ "rjr_Ms" → k ≠ "rjr_Rs" → k ≠ "weights" →
      ∀ c, combine_data ds = Except.ok (some c) → c.lookup k = none := by
  have hne₂ : ds.isEmpty = false := by
    cases ds
    · exact absurd rfl hne
    · rfl
  have hcomb : combine_data ds = Except.ok (some
      [ ("rjr_Ms", ds.flatMap (fun d => (d.lookup "rjr_Ms").getD [])),
        ("rjr_Rs", ds.flatMap (fun d => (d.lookup "rjr_Rs").getD [])),
        ("weights", ds.flatMap (fun d => (d.lookup "weights").getD [])) ]) := by
    unfold combine_data
    rw [hne₂]
    simp only [Bool.false_eq_true, if_false]
    rw [mapM_getColumn "rjr_Ms" ds (fun d hd => (h d hd).1)]
    rw [mapM_getColumn "rjr_Rs" ds (fun d hd => (h d hd).2.1)]
    rw [mapM_getColumn "weights" ds (fun d hd => (h d hd).2.2)]
    simp only [List.flatMap_def]
    rfl
  refine ⟨hcomb, ?_⟩
  intro k h1 h2 h3 c hc
  rw [hcomb] at hc
  obtain rfl := Option.some.inj (Except.ok.inj hc)
  simp [List.lookup, beq_eq_false_iff_ne.mpr h1, beq_eq_false_iff_ne.mpr h2,
    beq_eq_false_iff_ne.mpr h3]

/-- C4 witness: the amended claim applied to the concrete one-file region. -/
theorem claim_C4_witness :
    combine_data [c4FileData] =
      Except.ok (some [("rjr_Ms", [1]), ("rjr_Rs", [2]), ("weights", [3])]) := by
  have h := claim_C4 [c4FileData] (by simp) (by decide)
  rw [h.1]
  rfl

/-- C5 counterexample: combining the empty region result returns the value
`None` through the normal return path; it does not raise (the claim that
an `EmptyRegionError` is raised to the caller is false — no such
exception class even exists in the repository). -/
theorem claim_C5_counterexample :
    combine_data [] = Except.ok none := rfl

/-- C5 (amended): combining a region result with zero contributing files
returns `None` (an absent value) to the caller rather than raising. -/
theorem claim_C5 :
    ∀ (ds : List VDict), ds.isEmpty = true →
      combine_data ds = Except.ok none := by
  intro ds h
  unfold combine_data
  rw [h]
  rfl

/-- C5 witness: the amended claim at the empty region result. -/
theorem claim_C5_witness : combine_data [] = Except.ok none :=
  claim_C5 [] rfl

/-- C6: the condition evaluator has exactly two failure outcomes: when the
grammar does not match a prefix of the condition it fails naming the
condition (the spec's `ParseError`, e.g. on `x>>1`), and when the matched
identifier is not a key of the bindings it fails naming that identifier
(the spec's `ConfigurationError`); otherwise it succeeds with the
element-wise comparison mask. -/
theorem claim_C6 :
    (∀ (cond : List Char) (vars : Bindings),
      (matchCondition cond = none ∧
        evaluate_single_condition cond vars =
          Except.error (CutErr.cannotParse cond)) ∨
      (∃ m, matchCondition cond = some m ∧ vars.lookup m.var = none ∧
        evaluate_single_condition cond vars =
          Except.error (CutErr.unknownVariable m.var)) ∨
      (∃ m arr, matchCondition cond = some m ∧ vars.lookup m.var = some arr ∧
        evaluate_single_condition cond vars =
          Except.ok (applyOp m.op arr (litToVal m.lit)))) ∧
    evaluate_single_condition "x>>1".toList [("x".toList, [1, 2])] =
      Except.error (CutErr.cannotParse "x>>1".toList) ∧
    evaluate_single_condition "foo>1".toList [("x".toList, [1, 2])] =
      Except.error (CutErr.unknownVariable "foo".toList) := by
  refine ⟨?_, rfl, rfl⟩
  intro cond vars
  unfold evaluate_single_condition
  cases hm : matchCondition cond with
  | none => exact Or.inl ⟨rfl, rfl⟩
  | some m =>
      cases hv : vars.lookup m.var with
      | none => exact Or.inr (Or.inl ⟨m, rfl, hv, by simp [hv]⟩)
      | some arr => exact Or.inr (Or.inr ⟨m, arr, rfl, hv, by simp [hv]⟩)

/-- The bindings of the spec's custom-cut example. -/
def c7Bindings : Bindings :=
  [("selCMet".toList, [100, 200]), ("nSelPhotons".toList, [1, 1])]

/-- C7: a cut string that splits into two or more parts on the literal
token ' & ' is evaluated as the element-wise logical AND of the per-part
condition masks; in particular the spec's example yields `[False, True]`. -/
theorem claim_C7 :
    (∀ (cut : List Char) (vars : Bindings) (parts : List (List Char))
        (masks : List (List Bool)),
      splitOnAmp cut = parts → 2 ≤ parts.length →
      parts.mapM (fun p => evaluate_single_condition (stripChars p) vars) =
        Except.ok masks →
      parse_simple_cut cut vars = Except.ok (andMasks masks)) ∧
    parse_simple_cut "selCMet>150 & nSelPhotons==1".toList c7Bindings =
      Except.ok [false, true] := by
  constructor
  · intro cut vars parts masks hsplit hlen hmap
    unfold parse_simple_cut
    rw [hsplit, if_pos hlen, hmap]
  · rfl

/-- C7 witness: the general conjunct applied to the spec's example split. -/
theorem claim_C7_witness :
    parse_simple_cut "selCMet>150 & nSelPhotons==1".toList c7Bindings =
      Except.ok (andMasks [[false, true], [true, true]]) :=
  claim_C7.1 "selCMet>150 & nSelPhotons==1".toList c7Bindings
    ["selCMet>150".toList, "nSelPhotons==1".toList]
    [[false, true], [true, true]] rfl (by decide) rfl

/-! ## Prefix matching of the condition regex (claim C10) -/

theorem takeWhile_append_of_forall {p : Char → Bool} :
    ∀ (l1 l2 : List Char), (∀ c ∈ l1, p c = true) →
    (∀ c, l2.head? = some c → p c = false) →
    (l1 ++ l2).takeWhile p = l1 ∧ (l1 ++ l2).dropWhile p = l2 := by
  intro l1
  induction l1 with
  | nil =>
      intro l2 _ h2
      cases l2 with
      | nil => exact ⟨rfl, rfl⟩
      | cons c rest =>
          have hc := h2 c rfl
          constructor
          · simp [List.takeWhile_cons, hc]
          · simp [List.dropWhile_cons, hc]
  | cons a t ih =>
      intro l2 h1 h2
      have ha : p a = true := h1 a (by simp)
      have iht := ih l2 (fun c hc => h1 c (by simp [hc])) h2
      constructor
      · simp [List.takeWhile_cons, ha, iht.1]
      · simp [List.dropWhile_cons, ha, iht.2]

theorem digit_not_whitespace (c : Char) (h : c.isDigit = true) :
    c.isWhitespace = false := by
  by_contra hwf
  have hw : c.isWhitespace = true := by simpa using hwf
  simp [Char.isWhitespace] at hw
  rcases hw with ((rfl | rfl) | rfl) | rfl <;> exact absurd h (by decide)

theorem digit_ne_eqChar (c : Char) (h : c.isDigit = true) : c ≠ '=' := by
  rintro rfl
  exact absurd h (by decide)

theorem dropSpaces_of_head_not_ws (l : List Char)
    (h : ∀ c, l.head? = some c → c.isWhitespace = false) :
    dropSpaces l = l := by
  unfold dropSpaces
  have := takeWhile_append_of_forall (p := Char.isWhitespace) [] l
    (by simp) h
  simpa using this.2

theorem matchOp_opChars (op : CmpOp) (rest : List Char)
    (hr : ∀ c, rest.head? = some c → c.isDigit = true) :
    matchOp (opChars op ++ rest) = some (op, rest) := by
  cases op <;> cases rest with
  | nil => rfl
  | cons c t =>
      have hc : c ≠ '=' := digit_ne_eqChar c (hr c rfl)
      unfold matchOp opChars
      simp [hc]

/-- The safety condition on trailing text: it does not extend the numeric
literal (it neither starts with a digit nor with a point followed by a
digit). -/
def junkSafe : List Char → Bool
  | [] => true
  | c :: rest =>
      !c.isDigit &&
        (decide (c ≠ '.') || match rest with
          | [] => true
          | c₂ :: _ => !c₂.isDigit)

theorem matchNumber_concat (ds junk : List Char) (hne : ds ≠ [])
    (hds : ∀ c ∈ ds, c.isDigit = true)
    (hj : junkSafe junk = true) :
    matchNumber (ds ++ junk) = some (ds, junk) := by
  have hjh : ∀ c, junk.head? = some c → c.isDigit = false := by
    intro c hc
    cases junk with
    | nil => cases hc
    | cons c₀ rest =>
        obtain rfl : c₀ = c := by simpa using hc
        unfold junkSafe at hj
        simp only [Bool.and_eq_true, Bool.not_eq_true'] at hj
        exact hj.1
  obtain ⟨htake, hdrop⟩ :=
    takeWhile_append_of_forall (p := Char.isDigit) ds junk hds hjh
  unfold matchNumber
  rw [htake, hdrop]
  rw [if_neg (by simpa using hne)]
  cases junk with
  | nil => rfl
  | cons c rest =>
      by_cases hcd : c = '.'
      · subst hcd
        simp only [junkSafe, Bool.and_eq_true, Bool.or_eq_true] at hj
        have hj₂ := hj.2
        rw [or_iff_right (by decide)] at hj₂
        cases rest with
        | nil => rfl
        | cons c₂ r₂ =>
            have hc₂ : c₂.isDigit = false := by simpa using hj₂
            simp [List.takeWhile_cons, hc₂]
      · split
        · next r2 heq =>
            injection heq with h1 _
            exact absurd h1 hcd
        · rfl

/-- The condition regex only matches a prefix: an identifier, an operator
and a numeric literal followed by arbitrary non-extending text match with
the trailing text left unconsumed. -/
theorem matchCondition_concat (idn : List Char) (op : CmpOp)
    (ds junk : List Char)
    (hidn : idn ≠ []) (hw : ∀ c ∈ idn, isWordChar c = true)
    (hds : ds ≠ []) (hd : ∀ c ∈ ds, c.isDigit = true)
    (hj : junkSafe junk = true) :
    matchCondition (idn ++ opChars op ++ ds ++ junk) =
      some ⟨idn, op, ds, junk⟩ := by
  have hassoc : idn ++ opChars op ++ ds ++ junk =
      idn ++ (opChars op ++ (ds ++ junk)) := by
    simp [List.append_assoc]
  rw [hassoc]
  have hop_head : ∀ c, (opChars op ++ (ds ++ junk)).head? = some c →
      isWordChar c = false := by
    cases op <;> (intro c hc; obtain rfl : _ = c := by simpa [opChars] using hc) <;> decide
  have hop_ws : ∀ c, (opChars op ++ (ds ++ junk)).head? = some c →
      c.isWhitespace = false := by
    cases op <;> (intro c hc; obtain rfl : _ = c := by simpa [opChars] using hc) <;> decide
  obtain ⟨ht1, hd1⟩ := takeWhile_append_of_forall idn _ hw hop_head
  have hds_head : ∀ c, (ds ++ junk).head? = some c → c.isDigit = true := by
    intro c hc
    cases ds with
    | nil => exact absurd rfl hds
    | cons c₀ t₀ =>
        obtain rfl : c₀ = c := by simpa using hc
        exact hd c₀ (by simp)
  have hds_ws : ∀ c, (ds ++ junk).head? = some c →
      c.isWhitespace = false :=
    fun c hc => digit_not_whitespace c (hds_head c hc)
  unfold matchCondition
  rw [ht1, hd1, if_neg (by simpa using hidn),
    dropSpaces_of_head_not_ws _ hop_ws,
    matchOp_opChars op (ds ++ junk) hds_head]
  simp only [dropSpaces_of_head_not_ws _ hds_ws,
    matchNumber_concat ds junk hds hd hj]

/-- C10: single-condition evaluation only requires the grammar to match a
prefix — trailing text after the numeric literal (text that does not
extend the literal) is silently ignored and the condition is evaluated as
if it were absent, rather than rejected; in particular
`nSelPhotons==1abc` evaluates like `nSelPhotons==1`. -/
theorem claim_C10 :
    (∀ (idn : List Char) (op : CmpOp) (ds junk : List Char)
        (vars : Bindings),
      idn ≠ [] → (∀ c ∈ idn, isWordChar c = true) →
      ds ≠ [] → (∀ c ∈ ds, c.isDigit = true) →
      junkSafe junk = true →
      evaluate_single_condition (idn ++ opChars op ++ ds ++ junk) vars =
        evaluate_single_condition (idn ++ opChars op ++ ds) vars) ∧
    evaluate_single_condition "nSelPhotons==1abc".toList
        [("nSelPhotons".toList, [1, 2])] = Except.ok [true, false] ∧
    evaluate_single_condition "nSelPhotons==1abc".toList
        [("nSelPhotons".toList, [1, 2])] =
      evaluate_single_condition "nSelPhotons==1".toList
        [("nSelPhotons".toList, [1, 2])] := by
  refine ⟨?_, rfl, rfl⟩
  intro idn op ds junk vars hidn hw hds hd hj
  have h1 := matchCondition_concat idn op ds junk hidn hw hds hd hj
  have h2 := matchCondition_concat idn op ds [] hidn hw hds hd rfl
  rw [List.append_nil] at h2
  unfold evaluate_single_condition
  rw [h1, h2]

/-- C10 witness: the general prefix-ignoring conjunct applied to the
concrete condition `nSelPhotons==1abc`. -/
theorem claim_C10_witness :
    evaluate_single_condition
        ("nSelPhotons".toList ++ opChars CmpOp.eq ++ ['1'] ++ "abc".toList)
        [("nSelPhotons".toList, [1, 2])] =
      evaluate_single_condition
        ("nSelPhotons".toList ++ opChars CmpOp.eq ++ ['1'])
        [("nSelPhotons".toList, [1, 2])] :=
  claim_C10.1 "nSelPhotons".toList CmpOp.eq ['1'] "abc".toList
    [("nSelPhotons".toList, [1, 2])] (by decide) (by decide) (by decide)
    (by decide) (by decide)

/-- A file tree with every branch `load_data` requests except
`hlt_flags`, carrying the four per-trigger columns (all false) and a row
that passes every other baseline condition. -/
def c8Tree : Table :=
  [ ("rjr_Ms", Col.jagged [[1000]]),
    ("rjr_Rs", Col.jagged [[1]]),
    ("evtFillWgt", Col.scalar [1]),
    ("SV_nHadronic", Col.scalar [0]),
    ("selCMet", Col.scalar [200]),
    ("rjrPTS", Col.jagged [[100]]),
    ("HadronicSV_mass", Col.jagged [[10]]),
    ("HadronicSV_dxy", Col.jagged [[0]]),
    ("HadronicSV_dxySig", Col.jagged [[0]]),
    ("HadronicSV_pOverE", Col.jagged [[0]]),
    ("HadronicSV_decayAngle", Col.jagged [[0]]),
    ("HadronicSV_cosTheta", Col.jagged [[0]]),
    ("HadronicSV_nTracks", Col.jagged [[0]]),
    ("LeptonicSV_mass", Col.jagged [[0]]),
    ("LeptonicSV_dxy", Col.jagged [[0]]),
    ("LeptonicSV_dxySig", Col.jagged [[0]]),
    ("LeptonicSV_pOverE", Col.jagged [[0]]),
    ("LeptonicSV_decayAngle", Col.jagged [[0]]),
    ("LeptonicSV_cosTheta", Col.jagged [[0]]),
    ("selPhoEta", Col.jagged [[0]]),
    ("selPhoWTime", Col.jagged [[0]]),
    ("evtPassFlag", Col.scalar [1]),
    ("Flag_MetFilters", Col.scalar [1]),
    ("Trigger_PFMET120_PFMHT120_IDTight", Col.scalar [0]),
    ("Trigger_PFMETNoMu120_PFMHTNoMu120_IDTight", Col.scalar [0]),
    ("Trigger_PFMET120_PFMHT120_IDTight_PFHT60", Col.scalar [0]),
    ("Trigger_PFMETNoMu120_PFMHTNoMu120_IDTight_PFHT60", Col.scalar [0]) ]

/-- C8 (divergence evidence): on a file whose tree lacks `hlt_flags` but
carries the four per-trigger columns, the documented fallback
(`_apply_hlt_fallback`) would succeed and exclude the trigger-failing
row, yet (a) `load_data`'s bulk branch read — which requests `hlt_flags`
eagerly — fails, so the whole file is skipped and the fallback is never
reached, and (b) `load_data_unified` drops the condition entirely,
keeping the row in the baseline mask instead of recomputing the trigger
OR. -/
theorem claim_C8 :
    containsKey c8Tree "hlt_flags" = false ∧
    (∀ b ∈ hltTriggerBranches, containsKey c8Tree b = true) ∧
    apply_hlt_fallback c8Tree = Except.ok [false] ∧
    load_data_file c8Tree ["evtPassFlag"] 400 =
      Except.error (PyErr.keyInFileError "hlt_flags") ∧
    load_data_files [("file.root", c8Tree)] ["evtPassFlag"] 400 = [] ∧
    unified_base_mask (unified_data c8Tree ["evtPassFlag"]) = [true] :=
  ⟨rfl, by decide, rfl, rfl, rfl, rfl⟩

/-- C9: constructing a `DataLoader` raises `TypeError` for every argument
combination, because `DataLoader.__init__` passes `exclude_bh_filter` to
`SelectionManager`, whose `__init__` accepts no parameters; consequently
no loading entry point is reachable through a freshly constructed
`DataLoader`. -/
theorem claim_C9 :
    ∀ (tree_name : String) (luminosity : Val) (exclude_bh_filter : Bool),
      DataLoader.make tree_name luminosity exclude_bh_filter =
        Except.error (PyErr.typeError
          "SelectionManager.__init__() takes 1 positional argument but 2 were given") ∧
      ∀ dl : DataLoader,
        DataLoader.make tree_name luminosity exclude_bh_filter ≠
          Except.ok dl := by
  intro tn lumi ex
  have h1 : DataLoader.make tn lumi ex = Except.error (PyErr.typeError
      "SelectionManager.__init__() takes 1 positional argument but 2 were given") := rfl
  refine ⟨h1, ?_⟩
  intro dl h
  rw [h1] at h
  exact Except.noConfusion h

/-- C9 witness: the constructor call made by `main.py` line 262
(`DataLoader(args.tree, luminosity=args.lumi)`) raises. -/
theorem claim_C9_witness :
    DataLoader.make "kuSkimTree" 400 false =
      Except.error (PyErr.typeError
        "SelectionManager.__init__() takes 1 positional argument but 2 were given") :=
  (claim_C9 "kuSkimTree" 400 false).1

end LLP
